import Mathlib

/-!
Verification development for the FlowSync repository.

The definitions below are shallow embeddings of the repository's code:
the VS Code extension's git capture (`gitUtils` / `extension.ts`), the
ingestion Lambda (`src/infra/lambda/ingestion/index.js`), the Bedrock
client (`src/backend/bedrockApi.js`, `src/backend/promptUtil.js`), and —
where the repository ships only the infrastructure declaration of a
Lambda, not its code — models built from the specification's own words
(each such definition is marked `Modelled from the spec:`).

JavaScript strings are modelled by Lean `String` (or `List Char` where
character-level reasoning is needed), absent/`null`/`undefined` values by
`Option`, DynamoDB tables by association lists keyed on the table's
declared partition/sort key, and external ports (scrypt, extraction,
embedding, generation) by function parameters.
-/

namespace FlowSync

/- ### Extension: git capture (src/unnamed/part_001 `gitUtils`, extension.ts) -/

/-- Metadata captured from the most recent git commit (`CommitInfo`). -/
structure CommitInfo where
  commitHash : String
  message : String
  author : String
  timestamp : String
deriving DecidableEq

/-- Payload of a push event built by the extension (`PushPayload`). -/
structure ExtPushPayload where
  commitHash : String
  message : String
  diff : String
  author : String
  parentBranch : Option String
deriving DecidableEq

/-- Event payload sent to the ingestion backend (`CapturedEvent`). -/
structure CapturedEvent where
  eventId : String
  projectId : String
  eventType : String
  timestamp : String
  branch : String
  payload : ExtPushPayload
deriving DecidableEq

/-- `getDiff` from `gitUtils`: the raw `git diff HEAD~1 HEAD` output is
`none` when the git invocation failed, otherwise `some` of its trimmed
stdout.  JavaScript `if (!diff) return null` treats the empty string as
falsy; a non-empty diff longer than 50 000 characters is truncated by
`diff.slice(0, 50_000)`. -/
def getDiff (gitResult : Option String) : Option String :=
  match gitResult with
  | none => none
  | some d =>
    if d.isEmpty then none
    else if 50000 < d.length then some (String.mk (d.toList.take 50000)) else some d

/-- `handlePushEvent` from `extension.ts` (capture step): returns the
event transmitted to the backend, or `none` when no transmission happens
(`if (!diff || !commitInfo) { ...; return; }`). -/
def handlePushEvent (rawDiff : Option String) (ci : Option CommitInfo)
    (uuid projectId ts branch defaultBranch : String) : Option CapturedEvent :=
  match getDiff rawDiff, ci with
  | some diff, some info =>
    some { eventId := uuid
           projectId := projectId
           eventType := "push"
           timestamp := ts
           branch := branch
           payload :=
             { commitHash := info.commitHash
               message := info.message
               diff := diff
               author := info.author
               parentBranch := if defaultBranch ≠ branch then some defaultBranch else none } }
  | _, _ => none

/- ### Backend: Bedrock prompt construction and invocation
   (src/backend/promptUtil.js, src/backend/bedrockApi.js) -/

/-- Event data used by `buildBedrockPrompt`. -/
structure BedrockEvent where
  projectName : Option String
  eventType : Option String
  eventId : Option String
  timestamp : Option String
  author : Option String
  projectId : Option String
  commitMessage : Option String
  codeDiff : Option String
  developerNote : Option String
  source : Option String
deriving DecidableEq

/-- JavaScript `String.prototype.replace(pattern, rep)` with a string
pattern: replaces only the first occurrence. -/
def replaceFirst (s pat rep : String) : String :=
  match s.splitOn pat with
  | [] => s
  | [x] => x
  | x :: y :: rest => x ++ rep ++ String.intercalate pat (y :: rest)

/-- `buildBedrockPrompt` from `promptUtil.js`: fills the template read
from `prompts/prompt_template.md` by a chain of first-occurrence
replacements (each `|| ''` modelled by `Option.getD ""`). -/
def buildBedrockPrompt (template : String) (event : BedrockEvent) : String :=
  let t0 := replaceFirst template "[Project Name]" (event.projectName.getD "")
  let t1 := replaceFirst t0 "[Commit/File Change/Developer Note]" (event.eventType.getD "")
  let t2 := replaceFirst t1 "[Unique Identifier]" (event.eventId.getD "")
  let t3 := replaceFirst t2 "[YYYY-MM-DD HH:MM:SS]" (event.timestamp.getD "")
  let t4 := replaceFirst t3 "[Name or ID]" (event.author.getD "")
  let t5 := replaceFirst t4 "[Project Identifier]" (event.projectId.getD "")
  let t6 := replaceFirst t5 "[If applicable]" (event.commitMessage.getD "")
  let t7 := replaceFirst t6 "[If applicable]" (event.codeDiff.getD "")
  let t8 := replaceFirst t7 "[If applicable]" (event.developerNote.getD "")
  let t9 := replaceFirst t8 "[Event ID]" (event.eventId.getD "")
  replaceFirst t9 "[VS Code Extension/Event Ingestion Backend]" (event.source.getD "")

/-- The `inference_config` block `callBedrock` puts in every request body
(`bedrockApi.js`): `maxTokens: 512, temperature: 1, topP: 0.5`. -/
structure InferenceConfig where
  maxTokens : Nat
  temperature : ℚ
  topP : ℚ
deriving DecidableEq

/-- A Bedrock `InvokeModel` request as constructed by `callBedrock`. -/
structure BedrockRequest where
  modelId : String
  prompt : String
  config : InferenceConfig
deriving DecidableEq

/-- `callBedrock` from `bedrockApi.js`: request construction.  The model
id and the whole inference configuration are hard-coded; the prompt is
`buildBedrockPrompt(event)`. -/
def bedrockRequest (template : String) (event : BedrockEvent) : BedrockRequest :=
  { modelId := "openai.gpt-oss-120b-1:0"
    prompt := buildBedrockPrompt template event
    config := { maxTokens := 512, temperature := 1, topP := 1/2 } }

/- ### Ingestion Lambda: validation (src/infra/lambda/ingestion/index.js) -/

/-- A character matched by `[0-9a-f]` under the `/i` flag. -/
def isHexDigitI (c : Char) : Bool :=
  let n := c.toNat
  (48 ≤ n && n ≤ 57) || (97 ≤ n && n ≤ 102) || (65 ≤ n && n ≤ 70)

/-- The `UUID_V4` regex
`^[0-9a-f]{8}-[0-9a-f]{4}-4[0-9a-f]{3}-[89ab][0-9a-f]{3}-[0-9a-f]{12}$/i`:
length 36, hyphens at indices 8, 13, 18, 23, the character `4` at index
14, one of `8 9 a b` (case-insensitive) at index 19, hex elsewhere. -/
def isUuidV4 (s : String) : Bool :=
  let cs := s.toList
  cs.length == 36 &&
  (List.range 36).all (fun i =>
    let c := cs.getD i ' '
    if i == 8 || i == 13 || i == 18 || i == 23 then c == '-'
    else if i == 14 then c == '4'
    else if i == 19 then
      c == '8' || c == '9' || c == 'a' || c == 'b' || c == 'A' || c == 'B'
    else isHexDigitI c)

/-- The `COMMIT_HASH` regex `^[0-9a-f]{40}$/i`. -/
def isCommitHash (s : String) : Bool :=
  s.toList.length == 40 && s.toList.all isHexDigitI

/-- Consume exactly `n` decimal digits, returning the rest. -/
def chompDigits : Nat → List Char → Option (List Char)
  | 0, cs => some cs
  | n + 1, c :: cs => if c.isDigit then chompDigits n cs else none
  | _ + 1, [] => none

/-- Consume one expected character, returning the rest. -/
def chompChar (ch : Char) : List Char → Option (List Char)
  | c :: cs => if c == ch then some cs else none
  | [] => none

/-- Consume the optional fractional-seconds group `(\.\d+)?`. -/
def chompOptFrac : List Char → Option (List Char)
  | '.' :: cs =>
    match cs with
    | c :: _ => if c.isDigit then some (cs.dropWhile Char.isDigit) else none
    | [] => none
  | cs => some cs

/-- Match the timezone tail `(Z|[+-]\d{2}:?\d{2})$`. -/
def chompZone : List Char → Bool
  | ['Z'] => true
  | c :: cs =>
    (c == '+' || c == '-') &&
    (match chompDigits 2 cs with
     | some (':' :: rest) => chompDigits 2 rest == some []
     | some rest => chompDigits 2 rest == some []
     | none => false)
  | [] => false

/-- The `ISO_8601` regex
`^\d{4}-\d{2}-\d{2}T\d{2}:\d{2}:\d{2}(\.\d+)?(Z|[+-]\d{2}:?\d{2})$`. -/
def isIso8601 (s : String) : Bool :=
  (do
    let r ← chompDigits 4 s.toList
    let r ← chompChar '-' r
    let r ← chompDigits 2 r
    let r ← chompChar '-' r
    let r ← chompDigits 2 r
    let r ← chompChar 'T' r
    let r ← chompDigits 2 r
    let r ← chompChar ':' r
    let r ← chompDigits 2 r
    let r ← chompChar ':' r
    let r ← chompDigits 2 r
    let r ← chompOptFrac r
    pure (chompZone r)).getD false

/-- JavaScript truthiness of a possibly-absent string field:
`undefined`, `null` and `""` are falsy. -/
def strPresent : Option String → Bool
  | some s => !s.isEmpty
  | none => false

/-- The `payload` object of a submitted event (absent fields are
`none`). -/
structure IngestPayload where
  commitHash : Option String
  message : Option String
  author : Option String
  changedFiles : Option (List String)
  diff : Option String
  parentBranch : Option String
  text : Option String
  filePath : Option String
  lineNumber : Option Int
deriving DecidableEq

/-- A submitted event body as seen by `ingestEvent` after JSON parsing. -/
structure IngestEvent where
  eventId : Option String
  projectId : Option String
  eventType : Option String
  timestamp : Option String
  branch : Option String
  payload : Option IngestPayload
deriving DecidableEq

/-- The push-specific checks of `validateEvent`.  (`p.changedFiles &&
!Array.isArray(p.changedFiles)` cannot fire in the typed model, where a
present `changedFiles` is always an array.) -/
def validatePush (p : IngestPayload) : List String :=
  (if !strPresent p.commitHash then ["commitHash: required for push events"]
   else if !isCommitHash (p.commitHash.getD "") then
     ["commitHash: must be exactly 40 hex characters"]
   else [])
  ++ (if p.message = none then ["message: required for push events"] else [])
  ++ (if !strPresent p.author then ["author: required for push events"] else [])
  ++ (match p.diff with
      | some d => if 50000 < d.length then ["diff: max 50000 characters"] else []
      | none => [])

/-- The developer-note-specific checks of `validateEvent`. -/
def validateNote (p : IngestPayload) : List String :=
  (if !strPresent p.text then ["text: required for developer_note events"] else [])
  ++ (if !strPresent p.filePath then ["filePath: required for developer_note events"]
      else if ((p.filePath.getD "").splitOn "..").length != 1 then
        ["filePath: directory traversal (..) not allowed"]
      else [])
  ++ (match p.lineNumber with
      | none => ["lineNumber: required for developer_note events"]
      | some n => if n < 0 then ["lineNumber: must be a non-negative integer"] else [])

/-- `validateEvent` from the ingestion Lambda, error strings and order
preserved.  When `payload` is absent the function returns early, so the
type-specific checks never run. -/
def validateEvent (ev : IngestEvent) : List String :=
  (if !strPresent ev.eventId then ["eventId: required"]
   else if !isUuidV4 (ev.eventId.getD "") then ["eventId: must be a valid UUID v4"]
   else [])
  ++ (if !strPresent ev.projectId then ["projectId: required"] else [])
  ++ (if !(ev.eventType == some "push" || ev.eventType == some "developer_note") then
        ["eventType: must be push or developer_note"]
      else [])
  ++ (if !strPresent ev.timestamp then ["timestamp: required"]
      else if !isIso8601 (ev.timestamp.getD "") then ["timestamp: must be valid ISO 8601 UTC"]
      else [])
  ++ (if !strPresent ev.branch then ["branch: required"]
      else if 255 < (ev.branch.getD "").length then ["branch: max 255 characters"]
      else [])
  ++ (match ev.payload with
      | none => ["payload: required"]
      | some p =>
        (if ev.eventType == some "push" then validatePush p else [])
        ++ (if ev.eventType == some "developer_note" then validateNote p else []))

/- ### Ingestion Lambda: persistence and the `ingestEvent` route -/

/-- A DynamoDB `Put` on a table modelled as an association list keyed on
the table's declared key: the item at the same key (if any) is
replaced. -/
def putKeyed {κ α : Type} [DecidableEq κ] (k : κ) (v : α) (t : List (κ × α)) :
    List (κ × α) :=
  (k, v) :: t.filter (fun p => p.1 ≠ k)

/-- Number of rows of a keyed table whose key equals `k`. -/
def countKey {κ α : Type} [DecidableEq κ] (k : κ) (t : List (κ × α)) : Nat :=
  (t.filter (fun p => p.1 = k)).length

/-- The item written to `flowsync-events` (partition key `projectId`,
sort key `timestampEventId`). -/
structure EventRecord where
  projectId : String
  timestampEventId : String
  branchTimestamp : String
  eventId : String
  eventType : String
  branch : String
  parentBranch : Option String
  payload : IngestPayload
  receivedAt : String
  processingStatus : String
deriving DecidableEq

/-- The audit item written by `ingestEvent` (table key
`(entityId, timestamp)`). -/
structure AuditEntry where
  entityType : String
  action : String
  actor : String
  eventType : String
  branch : String
  commitHash : Option String
deriving DecidableEq

/-- Mutable state touched by the `POST /api/v1/events` route: the events
table, the S3 raw-event archive (keyed by `(projectId, eventId)` from the
object path `raw-events/{projectId}/{eventId}.json`), the fire-and-forget
AI-Lambda invocations, and the audit table. -/
structure IngestState where
  events : List ((String × String) × EventRecord)
  archive : List ((String × String) × IngestEvent)
  aiInvocations : List IngestEvent
  audit : List ((String × String) × AuditEntry)
deriving DecidableEq

/-- Success/failure of each external call `ingestEvent` makes: the
critical DynamoDB write, the S3 archive, the AI-Lambda invoke, the audit
write. -/
structure IngestEnv where
  dynamoOk : Bool
  s3Ok : Bool
  aiOk : Bool
  auditOk : Bool
deriving DecidableEq

/-- Outcome of the route as seen by the caller: the 200 body, the 400
`validation_failed` body, or the 500 `internal_error` produced by the
`handler`'s catch-all when the critical write throws. -/
inductive IngestResult
  | ok (eventId projectId branch : String)
  | validationFailed (details : List String)
  | internalError
deriving DecidableEq

/-- `ingestEvent` (post-authentication): validate; on any validation
error respond 400 and write nothing.  Otherwise write the event record
(the one critical write — if it throws, the `handler` catch turns it into
a 500 and nothing has been written), then attempt the S3 archive, the AI
invoke and the audit write, each wrapped in `try/catch` whose failure is
only logged, and respond 200. -/
def ingestEvent (env : IngestEnv) (receivedAt : String) (st : IngestState)
    (ev : IngestEvent) : IngestResult × IngestState :=
  let errors := validateEvent ev
  if errors ≠ [] then (.validationFailed errors, st)
  else if !env.dynamoOk then (.internalError, st)
  else
    let eid := ev.eventId.getD ""
    let pid := ev.projectId.getD ""
    let ts := ev.timestamp.getD ""
    let br := ev.branch.getD ""
    let et := ev.eventType.getD ""
    let p := ev.payload.getD
      { commitHash := none, message := none, author := none, changedFiles := none
        diff := none, parentBranch := none, text := none, filePath := none
        lineNumber := none }
    let rec0 : EventRecord :=
      { projectId := pid
        timestampEventId := ts ++ "#" ++ eid
        branchTimestamp := br ++ "#" ++ ts
        eventId := eid
        eventType := et
        branch := br
        parentBranch := p.parentBranch
        payload := p
        receivedAt := receivedAt
        processingStatus := "pending" }
    let st1 := { st with events := putKeyed (pid, ts ++ "#" ++ eid) rec0 st.events }
    let st2 := if env.s3Ok then { st1 with archive := putKeyed (pid, eid) ev st1.archive }
               else st1
    let st3 := if env.aiOk then { st2 with aiInvocations := st2.aiInvocations ++ [ev] }
               else st2
    let auditItem : AuditEntry :=
      { entityType := "event", action := "created"
        actor := p.author.getD "system"
        eventType := et, branch := br, commitHash := p.commitHash }
    let st4 :=
      if env.auditOk then
        { st3 with audit := putKeyed (eid, receivedAt) auditItem st3.audit }
      else st3
    (.ok eid pid br, st4)

/-- The `flowsync-context` table (CDK: partition key `eventId`, no sort
key) as built by any sequence of `Put` item writes: DynamoDB itself keys
every item by `eventId`. -/
def contextTableOf {α : Type} (writes : List (String × α)) : List (String × α) :=
  writes.foldl (fun t w => putKeyed w.1 w.2 t) []

/- ### Ingestion Lambda: token helpers (`hashToken` / `verifyToken`)

Strings are modelled as `List Char`; the scrypt KDF is an external
primitive (Node's `crypto.scryptSync`) and enters as a function
parameter `scrypt plaintext salt`, returning the 128-character lowercase
hex encoding of the 64-byte derived key. -/

/-- JavaScript `String.prototype.split(sep)` for a one-character
separator, over character lists. -/
def splitOnCharL (sep : Char) : List Char → List (List Char)
  | [] => [[]]
  | c :: cs =>
    let r := splitOnCharL sep cs
    if c = sep then [] :: r
    else
      match r with
      | h :: t => (c :: h) :: t
      | [] => [[c]]

/-- Value of one hex digit as parsed by `Buffer.from(s, 'hex')`:
`0-9`, `a-f`, `A-F`. -/
def hexVal (c : Char) : Option Nat :=
  let n := c.toNat
  if 48 ≤ n ∧ n ≤ 57 then some (n - 48)
  else if 97 ≤ n ∧ n ≤ 102 then some (n - 87)
  else if 65 ≤ n ∧ n ≤ 70 then some (n - 55)
  else none

/-- `Buffer.from(s, 'hex')`: bytes from pairs of hex digits, stopping at
the first invalid pair (Node truncates malformed input). -/
def hexDecodeL : List Char → List Nat
  | c1 :: c2 :: rest =>
    match hexVal c1, hexVal c2 with
    | some h, some l => (16 * h + l) :: hexDecodeL rest
    | _, _ => []
  | _ => []

/-- `crypto.timingSafeEqual(Buffer.from(x,'hex'), Buffer.from(y,'hex'))`:
throws (`none`) when the byte lengths differ, otherwise compares. -/
def timingSafeEqualHexL (x y : List Char) : Option Bool :=
  let bx := hexDecodeL x
  let by' := hexDecodeL y
  if bx.length ≠ by'.length then none else some (bx = by')

/-- `hashToken` from the ingestion Lambda, with the randomly drawn salt
made explicit: returns `salt ++ ":" ++ scrypt(plaintext, salt)`. -/
def hashTokenL (scrypt : List Char → List Char → List Char)
    (salt plaintext : List Char) : List Char :=
  salt ++ ':' :: scrypt plaintext salt

/-- `verifyToken` from the ingestion Lambda: split the stored value on
`:`, destructure the first two parts as `[salt, hash]`, reject when
either is empty (JS falsiness), recompute the scrypt hash of the
candidate plaintext and compare timing-safely. -/
def verifyTokenL (scrypt : List Char → List Char → List Char)
    (plaintext stored : List Char) : Option Bool :=
  match splitOnCharL ':' stored with
  | s :: h :: _ =>
    if s = [] ∨ h = [] then some false
    else timingSafeEqualHexL h (scrypt plaintext s)
  | _ => some false

/-- A character of a lowercase hex encoding (`Buffer.toString('hex')`
emits only `0-9a-f`). -/
def isLowerHexChar (c : Char) : Bool :=
  (48 ≤ c.toNat && c.toNat ≤ 57) || (97 ≤ c.toNat && c.toNat ≤ 102)

/- ### LinkingEngine / BranchResolver / SemanticSearch

The CDK stack declares the `flowsync-ai-processing`, `flowsync-mcp` and
`flowsync-query` Lambdas but their code assets are not part of the
source tree; the definitions in this section are therefore modelled from
the specification (§3, §4.1–§4.3).  Timestamps are integers counted in
minutes; the matching window is 30 minutes. -/

/-- Modelled from the spec: the `stage` enum of the derived fields
(missing AI-processing Lambda). -/
inductive Stage
  | setup | featureDevelopment | refactoring | bugFix | testing | documentation
deriving DecidableEq

/-- Modelled from the spec: the structured fields returned by
`ExtractionPort` (missing AI-processing Lambda). -/
structure Derived where
  feature : String
  decision : Option String
  tasks : List String
  stage : Stage
  risk : Option String
  confidence : ℚ
  entities : List String
  modelVersion : String
deriving DecidableEq

/-- Modelled from the spec: the agent-authored reasoning bundle
(missing AI-processing Lambda). -/
structure Reasoning where
  reasoning : String
  decision : Option String
  tasks : Option (List String)
  risk : Option String
deriving DecidableEq

/-- Modelled from the spec: the record lifecycle status (§3). -/
inductive RecStatus
  | complete | uncommitted | stale
deriving DecidableEq

/-- Modelled from the spec: the ContextRecord data model (§3; missing
AI-processing Lambda).  `pushTimestamp` is the bound push's event
timestamp, used by `handleReasoning`'s window check. -/
structure ContextRecord where
  contextId : Nat
  projectId : String
  branch : String
  author : String
  parentBranch : Option String
  commitHash : Option String
  sourceEventId : Option String
  derived : Option Derived
  agentReasoning : Option Reasoning
  embedding : Option (List ℚ)
  status : RecStatus
  pushTimestamp : Option Int
  extractedAt : Option Int
  loggedAt : Option Int
  mergedInto : Option String
  mergedAt : Option Int
deriving DecidableEq

/-- Modelled from the spec: the push facts handed to `handlePush`
(§4.1; missing AI-processing Lambda). -/
structure PushEvent where
  eventId : String
  projectId : String
  branch : String
  parentBranch : Option String
  author : String
  commitHash : String
  timestamp : Int
  message : String
  diff : String
  changedFiles : List String
deriving DecidableEq

/-- Modelled from the spec: a reasoning submission (§4.1; missing
AI-processing/MCP Lambda). -/
structure ReasoningSubmission where
  projectId : String
  branch : String
  author : String
  body : Reasoning
  timestamp : Int
deriving DecidableEq

/-- Modelled from the spec: the external ports consumed by
LinkingEngine — a deterministic extraction function, an embedding
function, and the canonical-summary function its input goes through
(§2, §6). -/
structure Ports where
  extract : PushEvent → Derived
  embedText : String → List ℚ
  summarize : Derived → String

/-- Modelled from the spec: the 30-minute time-proximity window
(§4.1). -/
def windowMinutes : Int := 30

/-- Modelled from the spec: an `uncommitted` record claimable by the
push `ev` — same `(projectId, branch, author)`, status `uncommitted`,
and reasoning-submission time within 30 minutes of the push timestamp
(either may be earlier). -/
def pushMatches (ev : PushEvent) (r : ContextRecord) : Bool :=
  r.projectId == ev.projectId && r.branch == ev.branch && r.author == ev.author &&
  r.status == RecStatus.uncommitted &&
  (match r.loggedAt with
   | some t => (t - ev.timestamp).natAbs ≤ windowMinutes.natAbs
   | none => false)

/-- Modelled from the spec: distance of a candidate's reasoning time
from the push timestamp, for the closest-timestamp tie-break. -/
def candDist (ts : Int) (r : ContextRecord) : Nat :=
  ((r.loggedAt.getD ts) - ts).natAbs

/-- Modelled from the spec: pick the candidate with the closest
timestamp (§4.1 step 1 tie-break). -/
def closestTo (ts : Int) : List ContextRecord → Option ContextRecord
  | [] => none
  | r :: rs =>
    match closestTo ts rs with
    | none => some r
    | some best => if candDist ts r ≤ candDist ts best then some r else some best

/-- Modelled from the spec: `handlePush` (§4.1; missing AI-processing
Lambda).  Idempotency: a store already holding a record with this
`sourceEventId` is returned unchanged.  Otherwise the closest matching
`uncommitted` record is completed in place (derived fields, commitHash,
sourceEventId, embedding; `agentReasoning` untouched), or a fresh
`complete` record is created. -/
def handlePush (ports : Ports) (store : List ContextRecord) (ev : PushEvent)
    (freshId : Nat) : List ContextRecord :=
  if store.any (fun r => r.sourceEventId == some ev.eventId) then store
  else
    let d := ports.extract ev
    let emb := ports.embedText (ports.summarize d)
    match closestTo ev.timestamp (store.filter (pushMatches ev)) with
    | some r =>
      store.map (fun x =>
        if x.contextId == r.contextId then
          { x with commitHash := some ev.commitHash
                   sourceEventId := some ev.eventId
                   derived := some d
                   embedding := some emb
                   status := RecStatus.complete
                   pushTimestamp := some ev.timestamp
                   extractedAt := some ev.timestamp }
        else x)
    | none =>
      { contextId := freshId
        projectId := ev.projectId
        branch := ev.branch
        author := ev.author
        parentBranch := ev.parentBranch
        commitHash := some ev.commitHash
        sourceEventId := some ev.eventId
        derived := some d
        agentReasoning := none
        embedding := some emb
        status := RecStatus.complete
        pushTimestamp := some ev.timestamp
        extractedAt := some ev.timestamp
        loggedAt := none
        mergedInto := none
        mergedAt := none } :: store

/-- Modelled from the spec: result of `handleReasoning` (§4.1). -/
inductive LinkOutcome
  | complete | uncommitted
deriving DecidableEq

/-- Modelled from the spec: a `complete` record with no agent reasoning
yet that the submission can attach to — same key, push timestamp within
the 30-minute window of the submission timestamp. -/
def reasoningMatches (sub : ReasoningSubmission) (r : ContextRecord) : Bool :=
  r.projectId == sub.projectId && r.branch == sub.branch && r.author == sub.author &&
  r.status == RecStatus.complete && r.agentReasoning == none &&
  (match r.pushTimestamp with
   | some t => (sub.timestamp - t).natAbs ≤ windowMinutes.natAbs
   | none => false)

/-- Modelled from the spec: `handleReasoning` (§4.1; missing
AI-processing/MCP Lambda).  A matching `complete` record gets the
reasoning attached; otherwise a fresh `uncommitted` record is created
with no derived fields and no embedding. -/
def handleReasoning (store : List ContextRecord) (sub : ReasoningSubmission)
    (freshId : Nat) : LinkOutcome × List ContextRecord :=
  match store.find? (reasoningMatches sub) with
  | some r =>
    (LinkOutcome.complete,
     store.map (fun x =>
       if x.contextId == r.contextId then
         { x with agentReasoning := some sub.body, loggedAt := some sub.timestamp }
       else x))
  | none =>
    (LinkOutcome.uncommitted,
     { contextId := freshId
       projectId := sub.projectId
       branch := sub.branch
       author := sub.author
       parentBranch := none
       commitHash := none
       sourceEventId := none
       derived := none
       agentReasoning := some sub.body
       embedding := none
       status := RecStatus.uncommitted
       pushTimestamp := none
       extractedAt := none
       loggedAt := some sub.timestamp
       mergedInto := none
       mergedAt := none } :: store)

/-- Modelled from the spec: the per-record update of `onBranchMerged`
(§4.2) — set `mergedInto`/`mergedAt` on records of the source branch not
yet merged anywhere, touch nothing else. -/
def mergeTag (src tgt : String) (t : Int) (r : ContextRecord) : ContextRecord :=
  if r.branch == src && r.mergedInto == none then
    { r with mergedInto := some tgt, mergedAt := some t }
  else r

/-- Modelled from the spec: `onBranchMerged(sourceBranch, targetBranch,
mergedAt)` (§4.2; missing Lambda code). -/
def onBranchMerged (store : List ContextRecord) (src tgt : String) (t : Int) :
    List ContextRecord :=
  store.map (mergeTag src tgt t)

/-- Modelled from the spec: ordering of resolved records — most recent
`extractedAt` first (§4.2 step 1). -/
def newerFirst (r1 r2 : ContextRecord) : Bool :=
  r2.extractedAt.getD 0 ≤ r1.extractedAt.getD 0

/-- Modelled from the spec: a record visible as native to `b` — its own
branch is `b`, or it was merged into `b` (`mergedInto = b` is treated as
equivalent to nativity, §4.2). -/
def nativeTo (pid b : String) (r : ContextRecord) : Bool :=
  r.projectId == pid && (r.branch == b || r.mergedInto == some b)

/-- Modelled from the spec: `resolve(projectId, branch)` (§4.2, the
unbounded form used by search; missing query Lambda).  Native records
(merge-tagged ones included) ordered by `extractedAt` descending,
followed by the records inherited from the recorded `parentBranch`
values one level up. -/
def resolve (store : List ContextRecord) (pid b : String) : List ContextRecord :=
  let native := store.filter (nativeTo pid b)
  let sortedNative := native.insertionSort (fun r1 r2 => newerFirst r1 r2)
  let parents := (sortedNative.filterMap (fun r => r.parentBranch)).dedup
  let inherited := store.filter
    (fun r => r.projectId == pid && r.branch != b && parents.contains r.branch)
  sortedNative ++ inherited

/- ### SemanticSearch scoring (spec §4.3; missing MCP/query Lambda) -/

/-- Modelled from the spec: dot product of two embedding vectors
(rational components; extra trailing components of the longer vector are
ignored). -/
def dotQ : List ℚ → List ℚ → ℚ
  | a :: as, b :: bs => a * b + dotQ as bs
  | _, _ => 0

/-- Squared magnitude `|a|²` of a vector. -/
def normSq (a : List ℚ) : ℚ := dotQ a a

/-- Modelled from the spec: the cosine-similarity score
`dot(a,b) / (|a| * |b|)`, defined as `0` if either vector has zero
magnitude (§4.3 step 3). -/
noncomputable def score (a b : List ℚ) : ℝ :=
  if normSq a = 0 ∨ normSq b = 0 then 0
  else (dotQ a b : ℝ) / (Real.sqrt (normSq a : ℚ) * Real.sqrt (normSq b : ℚ))

/-- Decision procedure for `score a q ≤ score b q`, carried out entirely
in ℚ by sign analysis and cross-multiplied squares (no square roots). -/
def scoreLeB (a b q : List ℚ) : Bool :=
  let sa := dotQ a q
  let sb := dotQ b q
  let na := normSq a
  let nb := normSq b
  let nq := normSq q
  if nq = 0 then true
  else if na = 0 then (if nb = 0 then true else decide (0 ≤ sb))
  else if nb = 0 then decide (sa ≤ 0)
  else if 0 ≤ sa then
    (if sb < 0 then false else decide (sa ^ 2 * nb ≤ sb ^ 2 * na))
  else if 0 ≤ sb then true
  else decide (sb ^ 2 * na ≤ sa ^ 2 * nb)

/-- Embedding of a record, for ranking (candidates always carry one). -/
def embOf (r : ContextRecord) : List ℚ := r.embedding.getD []

/-- Confidence of a record's derived fields, for the tie-break. -/
def confOf (r : ContextRecord) : ℚ :=
  (r.derived.map (fun d => d.confidence)).getD 0

/-- Modelled from the spec: `r1` may precede `r2` in the ranked output —
strictly higher score, or equal score and the tie-breaks (higher
`confidence`, then more recent `extractedAt`) do not prefer `r2`
(§4.3 step 4). -/
def rankedBefore (q : List ℚ) (r1 r2 : ContextRecord) : Bool :=
  if scoreLeB (embOf r2) (embOf r1) q && !scoreLeB (embOf r1) (embOf r2) q then true
  else if scoreLeB (embOf r1) (embOf r2) q && !scoreLeB (embOf r2) (embOf r1) q then false
  else if confOf r2 < confOf r1 then true
  else if confOf r1 < confOf r2 then false
  else r2.extractedAt.getD 0 ≤ r1.extractedAt.getD 0

/-- The ranking order stated over real scores: descending score, ties
broken by higher confidence, then by more recent `extractedAt`. -/
def RankOrder (q : List ℚ) (r1 r2 : ContextRecord) : Prop :=
  score (embOf r2) q < score (embOf r1) q ∨
  (score (embOf r1) q = score (embOf r2) q ∧
   (confOf r2 < confOf r1 ∨
    (confOf r1 = confOf r2 ∧ r2.extractedAt.getD 0 ≤ r1.extractedAt.getD 0)))

/-- Modelled from the spec: result of `search` (§4.3 step 7) — the
ranked records, the generated answer with its groundedness flag, an
explicit insufficient-information marker, and the number of generation
calls performed. -/
structure SearchResult where
  results : List ContextRecord
  answer : Option String
  grounded : Bool
  insufficient : Bool
  generationCalls : Nat
deriving DecidableEq

/-- Modelled from the spec: a record eligible for ranking — `complete`
with a non-null embedding (§4.3 step 1). -/
def isCandidate (r : ContextRecord) : Bool :=
  r.status == RecStatus.complete && r.embedding.isSome

/-- Modelled from the spec: `search(projectId, branch, query, limit)`
(§4.3; missing MCP/query Lambda).  The candidate set is
`resolve(projectId, branch)` restricted to complete records with an
embedding; an empty candidate set skips generation and returns an
insufficient-information result; otherwise candidates are ranked by
cosine score with the spec's tie-breaks, the top `limit` are kept and
passed to the generation port `gen`, whose groundedness flag is
surfaced. -/
def search (gen : List ℚ → List ContextRecord → String × Bool)
    (store : List ContextRecord) (pid b : String) (qEmb : List ℚ) (limit : Nat) :
    SearchResult :=
  let candidates := (resolve store pid b).filter isCandidate
  if candidates.isEmpty then
    { results := [], answer := none, grounded := false
      insufficient := true, generationCalls := 0 }
  else
    let ranked := (candidates.insertionSort
      (fun r1 r2 => rankedBefore qEmb r1 r2)).take limit
    let g := gen qEmb ranked
    { results := ranked, answer := some g.1, grounded := g.2
      insufficient := false, generationCalls := 1 }

/- ### Statement-level definitions -/

/-- The event the extension transmits, as the ingestion Lambda receives
it (field-by-field JSON correspondence between `CapturedEvent` and the
parsed body of `POST /api/v1/events`). -/
def toIngestEvent (ev : CapturedEvent) : IngestEvent :=
  { eventId := some ev.eventId
    projectId := some ev.projectId
    eventType := some ev.eventType
    timestamp := some ev.timestamp
    branch := some ev.branch
    payload := some
      { commitHash := some ev.payload.commitHash
        message := some ev.payload.message
        author := some ev.payload.author
        changedFiles := none
        diff := some ev.payload.diff
        parentBranch := ev.payload.parentBranch
        text := none, filePath := none, lineNumber := none } }

/-- Number of rows of the events table whose item carries the given
`eventId` attribute (regardless of their key). -/
def countEventsWithId (tbl : List ((String × String) × EventRecord))
    (eid : String) : Nat :=
  (tbl.filter (fun p => p.2.eventId == eid)).length

/-- Keys of a keyed table are pairwise distinct. -/
def NodupKeys {κ α : Type} (t : List (κ × α)) : Prop :=
  (t.map Prod.fst).Nodup

/-- The claim's first validity condition: the submitted `eventId` is a
valid UUID v4. -/
def validEventIdB (ev : IngestEvent) : Bool :=
  match ev.eventId with
  | some s => isUuidV4 s
  | none => false

/-- The claim's second validity condition: the submitted `timestamp`
matches the Lambda's ISO-8601 pattern. -/
def validTimestampB (ev : IngestEvent) : Bool :=
  match ev.timestamp with
  | some s => isIso8601 s
  | none => false

/-- The claim's third validity condition: `branch` is present and
non-empty. -/
def validBranchB (ev : IngestEvent) : Bool :=
  strPresent ev.branch

/-- The claim's fourth validity condition: the payload carries a
`commitHash` of exactly 40 hex characters. -/
def validCommitB (ev : IngestEvent) : Bool :=
  match ev.payload with
  | some p =>
    match p.commitHash with
    | some c => isCommitHash c
    | none => false
  | none => false

/- ### Concrete sample data (used to instantiate the theorems) -/

/-- A well-formed push event body (valid UUID v4, ISO-8601 timestamp,
40-hex commit hash, non-empty branch). -/
def sampleIngestEvent : IngestEvent :=
  { eventId := some "123e4567-e89b-42d3-a456-426614174000"
    projectId := some "p1"
    eventType := some "push"
    timestamp := some "2026-01-01T00:00:00Z"
    branch := some "main"
    payload := some
      { commitHash := some "a94a8fe5ccb19ba61c4c0873d391e987982fbbd3"
        message := some "fix"
        author := some "alice"
        changedFiles := none
        diff := some "d"
        parentBranch := none
        text := none, filePath := none, lineNumber := none } }

/-- Fresh ingestion state: all tables empty. -/
def emptyIngestState : IngestState :=
  { events := [], archive := [], aiInvocations := [], audit := [] }

/-- Sample extraction output. -/
def sampleDerived : Derived :=
  { feature := "Auth", decision := none, tasks := [], stage := Stage.featureDevelopment
    risk := none, confidence := 1, entities := [], modelVersion := "m1" }

/-- Sample agent reasoning bundle. -/
def sampleReasoning : Reasoning :=
  { reasoning := "switched to JWT", decision := none, tasks := none, risk := none }

/-- A complete, push-produced context record at time 0 on `main`. -/
def sampleCtxRecord : ContextRecord :=
  { contextId := 1, projectId := "p", branch := "main", author := "alice"
    parentBranch := none, commitHash := some "a94a8fe5ccb19ba61c4c0873d391e987982fbbd3"
    sourceEventId := some "e1", derived := some sampleDerived
    agentReasoning := none, embedding := some [1, 0]
    status := RecStatus.complete, pushTimestamp := some 0, extractedAt := some 0
    loggedAt := none, mergedInto := none, mergedAt := none }

/-- A second complete record, orthogonal embedding, later extraction. -/
def sampleCtxRecord2 : ContextRecord :=
  { sampleCtxRecord with contextId := 2, embedding := some [0, 1], extractedAt := some 5 }

/-- A reasoning submission for the sample record's key at time `t`. -/
def sampleSubmission (t : Int) : ReasoningSubmission :=
  { projectId := "p", branch := "main", author := "alice"
    body := sampleReasoning, timestamp := t }

/- ### Theorems -/

/-- C2: the extraction pipeline's prompt construction is a pure function
of the event, but `callBedrock` hard-codes `temperature: 1` and
`topP: 0.5` into every request — a stochastic-sampling configuration
(not greedy `temperature 0`, and with no seed), so the model invocation
it configures is not deterministic for identical input, contradicting
the prompt template's own instruction that output must be deterministic
for identical input.  This theorem evaluates the request the code builds
at every input. -/
theorem C2_callBedrock_requests_stochastic_sampling :
    ∀ (template : String) (ev : BedrockEvent),
      (bedrockRequest template ev).config.temperature = 1 ∧
      (bedrockRequest template ev).config.topP = 1 / 2 ∧
      (bedrockRequest template ev).config.temperature ≠ 0 := by
  intro template ev
  refine ⟨rfl, rfl, ?_⟩
  norm_num [bedrockRequest]

/-- C6: whenever the candidate set (complete records with a non-null
embedding visible to the queried branch) is empty, `search` performs no
generation call, returns the explicit insufficient-information result,
and never returns `grounded = true`; moreover the result does not depend
on the generation port at all. -/
theorem C6_empty_candidates_skip_generation :
    ∀ (gen gen' : List ℚ → List ContextRecord → String × Bool)
      (store : List ContextRecord) (pid b : String) (qEmb : List ℚ) (limit : Nat),
      (resolve store pid b).filter isCandidate = [] →
      search gen store pid b qEmb limit =
        { results := [], answer := none, grounded := false
          insufficient := true, generationCalls := 0 } ∧
      search gen store pid b qEmb limit = search gen' store pid b qEmb limit := by
  intro gen gen' store pid b qEmb limit h
  constructor <;> simp [search, h]

/-- C6 witness: an empty store has an empty candidate set, and searching
it with a generation port that would fabricate a grounded answer still
returns the insufficient-information result with no generation call. -/
theorem C6_witness :
    (resolve [] "p" "main").filter isCandidate = [] ∧
    search (fun _ _ => ("fabricated", true)) [] "p" "main" [1] 5 =
      { results := [], answer := none, grounded := false
        insufficient := true, generationCalls := 0 } :=
  ⟨by decide,
   (C6_empty_candidates_skip_generation (fun _ _ => ("fabricated", true))
     (fun _ _ => ("x", false)) [] "p" "main" [1] 5 (by decide)).1⟩

/-- C4 counterexample: a valid push processed while the S3 archive write
fails (`s3Ok = false`).  The failure is caught and only logged: the route
still answers with the 200 success result, the event record is written,
and no archive object exists — a storage failure during event processing
that is not propagated to the caller as a failure result, refuting the
claim as stated. -/
theorem C4_counterexample :
    (ingestEvent ⟨true, false, true, true⟩ "2026-01-01T00:00:01Z"
        emptyIngestState sampleIngestEvent).1 =
      IngestResult.ok "123e4567-e89b-42d3-a456-426614174000" "p1" "main" ∧
    (ingestEvent ⟨true, false, true, true⟩ "2026-01-01T00:00:01Z"
        emptyIngestState sampleIngestEvent).2.archive = [] ∧
    (ingestEvent ⟨true, false, true, true⟩ "2026-01-01T00:00:01Z"
        emptyIngestState sampleIngestEvent).2.events ≠ [] := by
  refine ⟨?_, ?_, ?_⟩ <;> decide

/-- C4 (amended): validation failures and a failure of the critical
events-table write are propagated to the immediate caller as explicit
failure results (`validation_failed` / `internal_error`), and any failure
result leaves the state completely unchanged (no partial event, archive,
or audit write).  Failures of the S3-archive, AI-invoke and audit steps,
however, are deliberately swallowed as non-fatal: ingestion still
returns the 200 success result. -/
theorem C4_failure_propagation_amended :
    ∀ (env : IngestEnv) (rcv : String) (st : IngestState) (ev : IngestEvent),
      (validateEvent ev ≠ [] →
        ingestEvent env rcv st ev = (.validationFailed (validateEvent ev), st)) ∧
      (validateEvent ev = [] → env.dynamoOk = false →
        ingestEvent env rcv st ev = (.internalError, st)) ∧
      (∀ ds, (ingestEvent env rcv st ev).1 = .validationFailed ds →
        (ingestEvent env rcv st ev).2 = st) ∧
      ((ingestEvent env rcv st ev).1 = .internalError →
        (ingestEvent env rcv st ev).2 = st) ∧
      (validateEvent ev = [] → env.dynamoOk = true →
        (ingestEvent env rcv st ev).1 =
          .ok (ev.eventId.getD "") (ev.projectId.getD "") (ev.branch.getD "")) := by
  intro env rcv st ev
  by_cases hv : validateEvent ev = []
  · by_cases hd : env.dynamoOk
    · refine ⟨fun h => absurd hv h, fun _ h => by simp [h] at hd, ?_, ?_, ?_⟩ <;>
        simp [ingestEvent, hv, hd]
    · refine ⟨fun h => absurd hv h, fun _ _ => ?_, ?_, ?_, ?_⟩ <;>
        simp [ingestEvent, hv, hd]
  · refine ⟨fun _ => ?_, fun h => absurd h hv, ?_, ?_, fun h => absurd h hv⟩ <;>
      simp [ingestEvent, hv]

/-- C4 witness: instantiating the amended theorem on the sample event
with all non-critical calls failing — ingestion still succeeds; and on a
failing critical write — the explicit 500 with unchanged state. -/
theorem C4_witness :
    validateEvent sampleIngestEvent = [] ∧
    (ingestEvent ⟨true, false, false, false⟩ "t" emptyIngestState sampleIngestEvent).1 =
      .ok "123e4567-e89b-42d3-a456-426614174000" "p1" "main" ∧
    ingestEvent ⟨false, true, true, true⟩ "t" emptyIngestState sampleIngestEvent =
      (.internalError, emptyIngestState) :=
  ⟨by decide,
   (C4_failure_propagation_amended ⟨true, false, false, false⟩ "t"
      emptyIngestState sampleIngestEvent).2.2.2.2 (by decide) rfl,
   (C4_failure_propagation_amended ⟨false, true, true, true⟩ "t"
      emptyIngestState sampleIngestEvent).2.1 (by decide) rfl⟩

/-- C7: `onBranchMerged(sourceBranch, targetBranch, mergedAt)` updates
exactly the records with `branch = sourceBranch` and `mergedInto` unset,
setting only `mergedInto` and `mergedAt` (every other field, in
particular `branch`, is untouched; non-matching records are returned
verbatim); afterwards each tagged record is included by
`resolve(targetBranch)` as if native to it, and remains retrievable via
`resolve(sourceBranch)`. -/
theorem C7_onBranchMerged_frame :
    ∀ (store : List ContextRecord) (src tgt : String) (t : Int) (pid : String)
      (r : ContextRecord),
      (r.branch = src ∧ r.mergedInto = none →
        mergeTag src tgt t r = { r with mergedInto := some tgt, mergedAt := some t }) ∧
      (¬(r.branch = src ∧ r.mergedInto = none) → mergeTag src tgt t r = r) ∧
      (mergeTag src tgt t r).branch = r.branch ∧
      onBranchMerged store src tgt t = store.map (mergeTag src tgt t) ∧
      (r ∈ store → r.projectId = pid → r.branch = src → r.mergedInto = none →
        mergeTag src tgt t r ∈ resolve (onBranchMerged store src tgt t) pid tgt ∧
        mergeTag src tgt t r ∈ resolve (onBranchMerged store src tgt t) pid src) := by
  intro store src tgt t pid r
  refine ⟨?_, ?_, ?_, rfl, ?_⟩
  · rintro ⟨h1, h2⟩
    simp [mergeTag, h1, h2]
  · intro h
    have hc : (r.branch == src && r.mergedInto == none) = false := by
      by_cases hb : r.branch = src
      · by_cases hm : r.mergedInto = none
        · exact absurd ⟨hb, hm⟩ h
        · simp [hm]
      · simp [hb]
    simp [mergeTag, hc]
  · unfold mergeTag
    split <;> rfl
  · intro hmem hpid hb hm
    have hmm : mergeTag src tgt t r ∈ onBranchMerged store src tgt t :=
      List.mem_map_of_mem (mergeTag src tgt t) hmem
    constructor
    · unfold resolve
      refine List.mem_append_left _ ?_
      rw [List.mem_insertionSort]
      refine List.mem_filter.mpr ⟨hmm, ?_⟩
      simp [nativeTo, mergeTag, hb, hm, hpid]
    · unfold resolve
      refine List.mem_append_left _ ?_
      rw [List.mem_insertionSort]
      refine List.mem_filter.mpr ⟨hmm, ?_⟩
      simp [nativeTo, mergeTag, hb, hm, hpid]

/-- C7 witness: merging `main` into `release` on a one-record store —
the tagged record shows up in both branch resolutions. -/
theorem C7_witness :
    mergeTag "main" "release" 7 sampleCtxRecord ∈
      resolve (onBranchMerged [sampleCtxRecord] "main" "release" 7) "p" "release" ∧
    mergeTag "main" "release" 7 sampleCtxRecord ∈
      resolve (onBranchMerged [sampleCtxRecord] "main" "release" 7) "p" "main" :=
  (C7_onBranchMerged_frame [sampleCtxRecord] "main" "release" 7 "p"
    sampleCtxRecord).2.2.2.2 (List.mem_cons_self _ _) rfl rfl rfl

/-- The closest-timestamp tie-break only ever picks a member of the
candidate list. -/
lemma closestTo_mem {ts : Int} :
    ∀ {l : List ContextRecord} {r : ContextRecord}, closestTo ts l = some r → r ∈ l := by
  intro l
  induction l with
  | nil => intro r h; simp [closestTo] at h
  | cons a as ih =>
    intro r h
    rw [closestTo] at h
    cases hc : closestTo ts as with
    | none =>
      rw [hc] at h
      cases h
      exact List.mem_cons_self a as
    | some best =>
      rw [hc] at h
      dsimp only at h
      by_cases hd : candDist ts a ≤ candDist ts best
      · rw [if_pos hd] at h
        cases h
        exact List.mem_cons_self a as
      · rw [if_neg hd] at h
        cases h
        exact List.mem_cons_of_mem a (ih hc)

/-- C5: a push merges into an existing `uncommitted` record (and a
reasoning submission merges into an existing `complete` record) only
when the key `(projectId, branch, author)` matches and the two
timestamps differ by at most 30 minutes in either direction; a reasoning
submission whose timestamp is outside the window of every stored push
does not merge — it produces a fresh, separate `uncommitted` record on
top of the unchanged store. -/
theorem C5_thirty_minute_window :
    ∀ (ev : PushEvent) (sub : ReasoningSubmission) (store : List ContextRecord)
      (r : ContextRecord) (fid : Nat),
      (closestTo ev.timestamp (store.filter (pushMatches ev)) = some r →
        r ∈ store ∧ r.projectId = ev.projectId ∧ r.branch = ev.branch ∧
        r.author = ev.author ∧ r.status = RecStatus.uncommitted ∧
        ∃ t, r.loggedAt = some t ∧ (t - ev.timestamp).natAbs ≤ 30) ∧
      (store.find? (reasoningMatches sub) = some r →
        r ∈ store ∧ r.projectId = sub.projectId ∧ r.branch = sub.branch ∧
        r.author = sub.author ∧ r.status = RecStatus.complete ∧
        r.agentReasoning = none ∧
        ∃ t, r.pushTimestamp = some t ∧ (sub.timestamp - t).natAbs ≤ 30) ∧
      ((∀ x ∈ store, ∀ t : Int, x.pushTimestamp = some t →
          30 < (sub.timestamp - t).natAbs) →
        (handleReasoning store sub fid).1 = LinkOutcome.uncommitted ∧
        ∃ newRec, (handleReasoning store sub fid).2 = newRec :: store ∧
          newRec.status = RecStatus.uncommitted ∧ newRec.commitHash = none ∧
          newRec.agentReasoning = some sub.body ∧
          newRec.loggedAt = some sub.timestamp) := by
  intro ev sub store r fid
  refine ⟨?_, ?_, ?_⟩
  · intro h
    obtain ⟨hmem, hmatch⟩ := List.mem_filter.mp (closestTo_mem h)
    cases hlog : r.loggedAt with
    | none => simp [pushMatches, hlog] at hmatch
    | some t =>
      simp only [pushMatches, hlog, Bool.and_eq_true, beq_iff_eq,
        decide_eq_true_eq, windowMinutes] at hmatch
      obtain ⟨⟨⟨⟨h1, h2⟩, h3⟩, h4⟩, h5⟩ := hmatch
      exact ⟨hmem, h1, h2, h3, h4, t, rfl, by omega⟩
  · intro h
    have hmem := List.mem_of_find?_eq_some h
    have hmatch := List.find?_some h
    cases hpt : r.pushTimestamp with
    | none => simp [reasoningMatches, hpt] at hmatch
    | some t =>
      simp only [reasoningMatches, hpt, Bool.and_eq_true, beq_iff_eq,
        decide_eq_true_eq, windowMinutes] at hmatch
      obtain ⟨⟨⟨⟨⟨h1, h2⟩, h3⟩, h4⟩, h5⟩, h6⟩ := hmatch
      exact ⟨hmem, h1, h2, h3, h4, h5, t, rfl, by omega⟩
  · intro h
    have hn : store.find? (reasoningMatches sub) = none := by
      rw [List.find?_eq_none]
      intro x hx
      cases hpt : x.pushTimestamp with
      | none => simp [reasoningMatches, hpt]
      | some t =>
        have h30 := h x hx t hpt
        simp only [reasoningMatches, hpt, Bool.and_eq_true, beq_iff_eq,
          decide_eq_true_eq, windowMinutes]
        rintro ⟨-, h6⟩
        omega
    unfold handleReasoning
    rw [hn]
    exact ⟨rfl, _, rfl, rfl, rfl, rfl, rfl⟩

/-- C5 witness: with one complete record pushed at minute 0, a
reasoning submission at minute 31 creates a separate `uncommitted`
record, while the submission at minute 10 finds the record within the
window. -/
theorem C5_witness :
    ((handleReasoning [sampleCtxRecord] (sampleSubmission 31) 9).1 =
      LinkOutcome.uncommitted ∧
     ∃ newRec, (handleReasoning [sampleCtxRecord] (sampleSubmission 31) 9).2 =
        newRec :: [sampleCtxRecord] ∧
       newRec.status = RecStatus.uncommitted ∧ newRec.commitHash = none ∧
       newRec.agentReasoning = some (sampleSubmission 31).body ∧
       newRec.loggedAt = some (sampleSubmission 31).timestamp) ∧
    (∃ t, sampleCtxRecord.pushTimestamp = some t ∧
      ((sampleSubmission 10).timestamp - t).natAbs ≤ 30) := by
  constructor
  · refine (C5_thirty_minute_window ⟨"e", "p", "b", none, "a", "c", 0, "m", "d", []⟩
      (sampleSubmission 31) [sampleCtxRecord] sampleCtxRecord 9).2.2 ?_
    intro x hx t ht
    rw [List.mem_singleton] at hx
    subst hx
    simp only [sampleCtxRecord, Option.some.injEq] at ht
    simp only [sampleSubmission]
    omega
  · exact ((C5_thirty_minute_window ⟨"e", "p", "b", none, "a", "c", 0, "m", "d", []⟩
      (sampleSubmission 10) [sampleCtxRecord] sampleCtxRecord 9).2.1
      (by decide)).2.2.2.2.2.2

/-- On the success path, `ingestEvent` writes exactly one event item,
keyed by `(projectId, timestamp#eventId)` and carrying the submitted
`eventId`; the archive/AI/audit steps never touch the events table. -/
lemma ingest_ok_events (env : IngestEnv) (rcv : String) (st : IngestState)
    (ev : IngestEvent) (hv : validateEvent ev = []) (hd : env.dynamoOk = true) :
    ∃ r : EventRecord, r.eventId = ev.eventId.getD "" ∧
      ((ingestEvent env rcv st ev).2).events =
        putKeyed (ev.projectId.getD "", (ev.timestamp.getD "") ++ "#" ++ ev.eventId.getD "")
          r st.events := by
  refine ⟨{ projectId := ev.projectId.getD ""
            timestampEventId := (ev.timestamp.getD "") ++ "#" ++ ev.eventId.getD ""
            branchTimestamp := (ev.branch.getD "") ++ "#" ++ (ev.timestamp.getD "")
            eventId := ev.eventId.getD ""
            eventType := ev.eventType.getD ""
            branch := ev.branch.getD ""
            parentBranch := (ev.payload.getD
              ⟨none, none, none, none, none, none, none, none, none⟩).parentBranch
            payload := ev.payload.getD
              ⟨none, none, none, none, none, none, none, none, none⟩
            receivedAt := rcv
            processingStatus := "pending" }, rfl, ?_⟩
  simp [ingestEvent, hv, hd, apply_ite IngestState.events]

/-- Putting an item whose `eventId` attribute is `eid` adds exactly one
matching row on top of the other-keyed rows. -/
lemma countEventsWithId_putKeyed (tbl : List ((String × String) × EventRecord))
    (k : String × String) (r : EventRecord) (eid : String) (hr : r.eventId = eid) :
    countEventsWithId (putKeyed k r tbl) eid =
      1 + countEventsWithId (tbl.filter (fun p => p.1 ≠ k)) eid := by
  unfold countEventsWithId putKeyed
  rw [List.filter_cons_of_pos (by simp [hr])]
  simp [Nat.add_comm]

/-- Filtering a table never increases the number of rows with a given
`eventId`. -/
lemma countEventsWithId_filter_le (tbl : List ((String × String) × EventRecord))
    (q : (String × String) × EventRecord → Bool) (eid : String) :
    countEventsWithId (tbl.filter q) eid ≤ countEventsWithId tbl eid :=
  List.Sublist.length_le ((List.filter_sublist tbl).filter _)

/-- Re-putting at the same key leaves the other-keyed rows unchanged. -/
lemma putKeyed_filter_ne {κ α : Type} [DecidableEq κ] (tbl : List (κ × α))
    (k : κ) (r : α) :
    (putKeyed k r tbl).filter (fun p => p.1 ≠ k) = tbl.filter (fun p => p.1 ≠ k) := by
  unfold putKeyed
  rw [List.filter_cons_of_neg (by simp)]
  simp [List.filter_filter]

/-- `putKeyed` preserves key uniqueness. -/
lemma nodupKeys_putKeyed {κ α : Type} [DecidableEq κ] (k : κ) (v : α)
    (t : List (κ × α)) (h : NodupKeys t) : NodupKeys (putKeyed k v t) := by
  unfold NodupKeys putKeyed
  rw [List.map_cons]
  refine List.Nodup.cons ?_ (h.sublist (List.Sublist.map _ (List.filter_sublist t)))
  intro hk
  obtain ⟨p, hp, hpk⟩ := List.mem_map.mp hk
  have := (List.mem_filter.mp hp).2
  simp [hpk] at this

/-- A list that is duplicate-free and all of whose elements are equal
has at most one element. -/
lemma nodup_all_eq_length_le_one {κ : Type} (k : κ) :
    ∀ (l : List κ), l.Nodup → (∀ x ∈ l, x = k) → l.length ≤ 1 := by
  intro l hnd hall
  match l with
  | [] => simp
  | [a] => simp
  | a :: b :: rest =>
    exfalso
    have ha := hall a (List.mem_cons_self _ _)
    have hb := hall b (List.mem_cons_of_mem _ (List.mem_cons_self _ _))
    have : a ∉ b :: rest := (List.nodup_cons.mp hnd).1
    exact this (ha ▸ hb ▸ List.mem_cons_self b rest)

/-- A table with pairwise-distinct keys holds at most one row per key. -/
lemma countKey_le_one_of_nodupKeys {κ α : Type} [DecidableEq κ]
    (t : List (κ × α)) (h : NodupKeys t) (k : κ) : countKey k t ≤ 1 := by
  unfold countKey
  rw [← List.length_map _ Prod.fst]
  refine nodup_all_eq_length_le_one k _ ?_ ?_
  · exact h.sublist (List.Sublist.map _ (List.filter_sublist t))
  · intro x hx
    obtain ⟨p, hp, hpk⟩ := List.mem_map.mp hx
    have hp2 := (List.mem_filter.mp hp).2
    simp at hp2
    exact hpk ▸ hp2

/-- C1: delivering the same push event to `ingestEvent` twice yields
exactly one stored event record carrying that `eventId` (the second
`Put` replaces the first, since both use the key
`(projectId, timestamp#eventId)` derived from the event itself), and the
`flowsync-context` table — whose DynamoDB partition key is the
triggering push's `eventId` — can never hold two ContextRecords with the
same `sourceEventId`, whatever sequence of writes produced it. -/
theorem C1_ingestion_idempotent :
    ∀ (env : IngestEnv) (t1 t2 : String) (st : IngestState) (ev : IngestEvent),
      env.dynamoOk = true →
      validateEvent ev = [] →
      countEventsWithId st.events (ev.eventId.getD "") = 0 →
      countEventsWithId
          ((ingestEvent env t2 (ingestEvent env t1 st ev).2 ev).2).events
          (ev.eventId.getD "") = 1 ∧
      (∀ (writes : List (String × ContextRecord)) (eid : String),
        countKey eid (contextTableOf writes) ≤ 1) := by
  intro env t1 t2 st ev hd hv h0
  constructor
  · obtain ⟨r1, hr1, he1⟩ := ingest_ok_events env t1 st ev hv hd
    obtain ⟨r2, hr2, he2⟩ := ingest_ok_events env t2 (ingestEvent env t1 st ev).2 ev hv hd
    rw [he2, he1, countEventsWithId_putKeyed _ _ _ _ hr2, putKeyed_filter_ne]
    have hle := countEventsWithId_filter_le st.events
      (fun p => decide (p.1 ≠ (ev.projectId.getD "",
        (ev.timestamp.getD "") ++ "#" ++ ev.eventId.getD ""))) (ev.eventId.getD "")
    omega
  · intro writes eid
    refine countKey_le_one_of_nodupKeys _ ?_ eid
    have aux : ∀ (ws : List (String × ContextRecord)) (t : List (String × ContextRecord)),
        NodupKeys t → NodupKeys (ws.foldl (fun t w => putKeyed w.1 w.2 t) t) := by
      intro ws
      induction ws with
      | nil => intro t ht; exact ht
      | cons w ws ih => intro t ht; exact ih _ (nodupKeys_putKeyed _ _ _ ht)
    exact aux writes [] List.nodup_nil

/-- C1 witness: the sample event delivered twice into an empty store
leaves exactly one event row with its `eventId`. -/
theorem C1_witness :
    countEventsWithId
        ((ingestEvent ⟨true, true, true, true⟩ "t2"
          (ingestEvent ⟨true, true, true, true⟩ "t1" emptyIngestState sampleIngestEvent).2
          sampleIngestEvent).2).events
        (sampleIngestEvent.eventId.getD "") = 1 ∧
    countEventsWithId emptyIngestState.events (sampleIngestEvent.eventId.getD "") = 0 :=
  ⟨(C1_ingestion_idempotent ⟨true, true, true, true⟩ "t1" "t2" emptyIngestState
      sampleIngestEvent rfl (by decide) (by decide)).1, by decide⟩

/-- A push event that produces no validation errors satisfies all four
of the claim's validity conditions. -/
lemma validate_nil_push_valid (ev : IngestEvent) (hp : ev.eventType = some "push")
    (hv : validateEvent ev = []) :
    validEventIdB ev = true ∧ validTimestampB ev = true ∧
    validBranchB ev = true ∧ validCommitB ev = true := by
  unfold validateEvent at hv
  simp only [List.append_eq_nil] at hv
  obtain ⟨⟨⟨⟨⟨h1, h2⟩, h3⟩, h4⟩, h5⟩, h6⟩ := hv
  have hEid : strPresent ev.eventId = true ∧ isUuidV4 (ev.eventId.getD "") = true := by
    by_cases a : strPresent ev.eventId
    · by_cases b : isUuidV4 (ev.eventId.getD "")
      · exact ⟨a, b⟩
      · simp [a, b] at h1
    · simp [a] at h1
  have hTs : strPresent ev.timestamp = true ∧ isIso8601 (ev.timestamp.getD "") = true := by
    by_cases a : strPresent ev.timestamp
    · by_cases b : isIso8601 (ev.timestamp.getD "")
      · exact ⟨a, b⟩
      · simp [a, b] at h4
    · simp [a] at h4
  have hBr : strPresent ev.branch = true := by
    by_cases a : strPresent ev.branch
    · exact a
    · simp [a] at h5
  refine ⟨?_, ?_, hBr, ?_⟩
  · cases hE : ev.eventId with
    | none => rw [hE] at hEid; simp [strPresent] at hEid
    | some s =>
      have := hEid.2
      rw [hE] at this
      simpa [validEventIdB, hE] using this
  · cases hT : ev.timestamp with
    | none => rw [hT] at hTs; simp [strPresent] at hTs
    | some s =>
      have := hTs.2
      rw [hT] at this
      simpa [validTimestampB, hT] using this
  · cases hP : ev.payload with
    | none => rw [hP] at h6; simp at h6
    | some p =>
      rw [hP] at h6
      simp only [hp] at h6
      norm_num [List.append_eq_nil] at h6
      have h7 := h6.1
      have hCh : strPresent p.commitHash = true ∧
          isCommitHash (p.commitHash.getD "") = true := by
        by_cases a : strPresent p.commitHash
        · by_cases b : isCommitHash (p.commitHash.getD "")
          · exact ⟨a, b⟩
          · simp [validatePush, a, b] at h7
        · simp [validatePush, a] at h7
      cases hC : p.commitHash with
      | none => rw [hC] at hCh; simp [strPresent] at hCh
      | some c =>
        have := hCh.2
        rw [hC] at this
        simpa [validCommitB, hP, hC] using this

/-- A missing or malformed `eventId` is reported in the error list. -/
lemma invalid_eventId_mem (ev : IngestEvent) (h : validEventIdB ev = false) :
    "eventId: required" ∈ validateEvent ev ∨
    "eventId: must be a valid UUID v4" ∈ validateEvent ev := by
  cases hE : ev.eventId with
  | none => exact Or.inl (by simp [validateEvent, hE, strPresent])
  | some s =>
    by_cases hs : s.isEmpty
    · exact Or.inl (by simp [validateEvent, hE, strPresent, hs])
    · have hu : isUuidV4 s = false := by simpa [validEventIdB, hE] using h
      exact Or.inr (by simp [validateEvent, hE, strPresent, hs, hu])

/-- A missing or malformed `timestamp` is reported in the error list. -/
lemma invalid_timestamp_mem (ev : IngestEvent) (h : validTimestampB ev = false) :
    "timestamp: required" ∈ validateEvent ev ∨
    "timestamp: must be valid ISO 8601 UTC" ∈ validateEvent ev := by
  cases hT : ev.timestamp with
  | none => exact Or.inl (by simp [validateEvent, hT, strPresent])
  | some s =>
    by_cases hs : s.isEmpty
    · exact Or.inl (by simp [validateEvent, hT, strPresent, hs])
    · have hu : isIso8601 s = false := by simpa [validTimestampB, hT] using h
      exact Or.inr (by simp [validateEvent, hT, strPresent, hs, hu])

/-- A missing or empty `branch` is reported in the error list. -/
lemma invalid_branch_mem (ev : IngestEvent) (h : validBranchB ev = false) :
    "branch: required" ∈ validateEvent ev := by
  cases hB : ev.branch with
  | none => simp [validateEvent, hB, strPresent]
  | some s =>
    have hs : s.isEmpty := by simpa [validBranchB, strPresent, hB] using h
    simp [validateEvent, hB, strPresent, hs]

/-- A missing payload or a missing/malformed `commitHash` of a push
event is reported in the error list. -/
lemma invalid_commit_mem (ev : IngestEvent) (hp : ev.eventType = some "push")
    (h : validCommitB ev = false) :
    "commitHash: required for push events" ∈ validateEvent ev ∨
    "commitHash: must be exactly 40 hex characters" ∈ validateEvent ev ∨
    "payload: required" ∈ validateEvent ev := by
  cases hP : ev.payload with
  | none => exact Or.inr (Or.inr (by simp [validateEvent, hP]))
  | some p =>
    cases hC : p.commitHash with
    | none =>
      exact Or.inl (by simp [validateEvent, hP, hp, validatePush, hC, strPresent])
    | some c =>
      by_cases hc : c.isEmpty
      · exact Or.inl (by simp [validateEvent, hP, hp, validatePush, hC, strPresent, hc])
      · have hu : isCommitHash c = false := by simpa [validCommitB, hP, hC] using h
        exact Or.inr (Or.inl
          (by simp [validateEvent, hP, hp, validatePush, hC, strPresent, hc, hu]))

/-- C3: the ingestion route persists a push event only if it carries a
valid UUID v4 `eventId`, a timestamp matching the Lambda's ISO-8601
pattern, a non-empty `branch`, and a payload `commitHash` of exactly 40
hex characters; when any of these fails, it answers
`validation_failed`, reports each failed field in the details, and
writes nothing. -/
theorem C3_validation_gate :
    ∀ (env : IngestEnv) (rcv : String) (st : IngestState) (ev : IngestEvent),
      ev.eventType = some "push" →
      ((ingestEvent env rcv st ev).2 ≠ st →
        validEventIdB ev = true ∧ validTimestampB ev = true ∧
        validBranchB ev = true ∧ validCommitB ev = true) ∧
      (¬(validEventIdB ev = true ∧ validTimestampB ev = true ∧
          validBranchB ev = true ∧ validCommitB ev = true) →
        (ingestEvent env rcv st ev).1 = .validationFailed (validateEvent ev) ∧
        (ingestEvent env rcv st ev).2 = st ∧
        (validEventIdB ev = false →
          "eventId: required" ∈ validateEvent ev ∨
          "eventId: must be a valid UUID v4" ∈ validateEvent ev) ∧
        (validTimestampB ev = false →
          "timestamp: required" ∈ validateEvent ev ∨
          "timestamp: must be valid ISO 8601 UTC" ∈ validateEvent ev) ∧
        (validBranchB ev = false → "branch: required" ∈ validateEvent ev) ∧
        (validCommitB ev = false →
          "commitHash: required for push events" ∈ validateEvent ev ∨
          "commitHash: must be exactly 40 hex characters" ∈ validateEvent ev ∨
          "payload: required" ∈ validateEvent ev)) := by
  intro env rcv st ev hp
  constructor
  · intro hne
    by_cases hv : validateEvent ev = []
    · exact validate_nil_push_valid ev hp hv
    · exact absurd (by simp [ingestEvent, hv]) hne
  · intro hnv
    have hv : validateEvent ev ≠ [] := by
      intro h0
      obtain ⟨a, b, c, d⟩ := validate_nil_push_valid ev hp h0
      exact hnv ⟨a, b, c, d⟩
    exact ⟨by simp [ingestEvent, hv], by simp [ingestEvent, hv],
      invalid_eventId_mem ev, invalid_timestamp_mem ev, invalid_branch_mem ev,
      invalid_commit_mem ev hp⟩

/-- C3 witness: a push whose `commitHash` is 39 characters and whose
branch is empty is rejected with both fields reported and no state
change. -/
theorem C3_witness :
    (ingestEvent ⟨true, true, true, true⟩ "t" emptyIngestState
        { sampleIngestEvent with
            branch := some ""
            payload := some
              { commitHash := some "a94a8fe5ccb19ba61c4c0873d391e987982fbbd"
                message := some "fix", author := some "alice", changedFiles := none
                diff := some "d", parentBranch := none
                text := none, filePath := none, lineNumber := none } }).2 =
      emptyIngestState ∧
    "branch: required" ∈ validateEvent
      { sampleIngestEvent with
          branch := some ""
          payload := some
            { commitHash := some "a94a8fe5ccb19ba61c4c0873d391e987982fbbd"
              message := some "fix", author := some "alice", changedFiles := none
              diff := some "d", parentBranch := none
              text := none, filePath := none, lineNumber := none } } ∧
    "commitHash: must be exactly 40 hex characters" ∈ validateEvent
      { sampleIngestEvent with
          branch := some ""
          payload := some
            { commitHash := some "a94a8fe5ccb19ba61c4c0873d391e987982fbbd"
              message := some "fix", author := some "alice", changedFiles := none
              diff := some "d", parentBranch := none
              text := none, filePath := none, lineNumber := none } } := by
  have h := C3_validation_gate ⟨true, true, true, true⟩ "t" emptyIngestState
    { sampleIngestEvent with
        branch := some ""
        payload := some
          { commitHash := some "a94a8fe5ccb19ba61c4c0873d391e987982fbbd"
            message := some "fix", author := some "alice", changedFiles := none
            diff := some "d", parentBranch := none
            text := none, filePath := none, lineNumber := none } } (by decide)
  have h2 := h.2 (by decide)
  refine ⟨h2.2.1, h2.2.2.2.2.1 (by decide), ?_⟩
  rcases h2.2.2.2.2.2 (by decide) with hm | hm | hm
  · exact absurd hm (by decide)
  · exact hm
  · exact absurd hm (by decide)

/-- Splitting a separator-free list yields the list itself as the only
part. -/
lemma splitOnCharL_no_sep (sep : Char) :
    ∀ (l : List Char), sep ∉ l → splitOnCharL sep l = [l] := by
  intro l
  induction l with
  | nil => intro; rfl
  | cons c cs ih =>
    intro h
    have hc : ¬(c = sep) := fun e => h (e ▸ List.mem_cons_self c cs)
    have hcs : sep ∉ cs := fun m => h (List.mem_cons_of_mem c m)
    rw [splitOnCharL, ih hcs]
    simp [hc]

/-- Splitting `l ++ sep :: r` with `sep ∉ l` peels off `l` as the first
part. -/
lemma splitOnCharL_append (sep : Char) :
    ∀ (l r : List Char), sep ∉ l →
      splitOnCharL sep (l ++ sep :: r) = l :: splitOnCharL sep r := by
  intro l
  induction l with
  | nil => intro r _; simp [splitOnCharL]
  | cons c cs ih =>
    intro r h
    have hc : ¬(c = sep) := fun e => h (e ▸ List.mem_cons_self c cs)
    have hcs : sep ∉ cs := fun m => h (List.mem_cons_of_mem c m)
    rw [List.cons_append, splitOnCharL, ih r hcs]
    simp [hc]

/-- A colon never occurs in a lowercase hex encoding. -/
lemma colon_not_mem_of_hex (l : List Char)
    (h : ∀ c ∈ l, isLowerHexChar c = true) : ':' ∉ l := by
  intro hm
  have := h ':' hm
  exact absurd this (by decide)

/-- Every lowercase hex character has a hex value below 16. -/
lemma hexVal_lower (c : Char) (h : isLowerHexChar c = true) :
    ∃ v, hexVal c = some v ∧ v < 16 := by
  simp only [isLowerHexChar, Bool.or_eq_true, Bool.and_eq_true,
    decide_eq_true_eq] at h
  unfold hexVal
  rcases h with ⟨h1, h2⟩ | ⟨h1, h2⟩
  · exact ⟨c.toNat - 48, by rw [if_pos ⟨h1, h2⟩], by omega⟩
  · refine ⟨c.toNat - 87, ?_, by omega⟩
    rw [if_neg (by omega), if_pos ⟨h1, h2⟩]

/-- `hexVal` is injective on lowercase hex characters. -/
lemma hexVal_inj_lower (c c' : Char) (hc : isLowerHexChar c = true)
    (hc' : isLowerHexChar c' = true) (h : hexVal c = hexVal c') : c = c' := by
  simp only [isLowerHexChar, Bool.or_eq_true, Bool.and_eq_true,
    decide_eq_true_eq] at hc hc'
  unfold hexVal at h
  dsimp only at h
  split_ifs at h
  all_goals try injection h with h
  all_goals
    (have hnat : c.toNat = c'.toNat := by omega
     exact Char.eq_of_val_eq (UInt32.ext hnat))

/-- A full lowercase-hex even-length string decodes to half as many
bytes. -/
lemma hexDecodeL_length : ∀ (l : List Char),
    (∀ c ∈ l, isLowerHexChar c = true) → l.length % 2 = 0 →
    2 * (hexDecodeL l).length = l.length
  | [], _, _ => rfl
  | [c], _, hpar => by simp at hpar
  | c1 :: c2 :: r, hall, hpar => by
    obtain ⟨v1, hv1, -⟩ := hexVal_lower c1 (hall c1 (by simp))
    obtain ⟨v2, hv2, -⟩ := hexVal_lower c2 (hall c2 (by simp))
    rw [hexDecodeL, hv1, hv2]
    have := hexDecodeL_length r (fun c hc => hall c (by simp [hc]))
      (by simp at hpar ⊢; omega)
    simp only [List.length_cons]
    omega

/-- `hexDecodeL` is injective on equal-even-length lowercase-hex
strings. -/
lemma hexDecodeL_inj : ∀ (l1 l2 : List Char),
    (∀ c ∈ l1, isLowerHexChar c = true) → (∀ c ∈ l2, isLowerHexChar c = true) →
    l1.length = l2.length → l1.length % 2 = 0 →
    hexDecodeL l1 = hexDecodeL l2 → l1 = l2
  | [], [], _, _, _, _, _ => rfl
  | [], _ :: _, _, _, hlen, _, _ => by simp at hlen
  | _ :: _, [], _, _, hlen, _, _ => by simp at hlen
  | [_], _, _, _, _, hpar, _ => by simp at hpar
  | _ :: _ :: _, [_], _, _, hlen, _, _ => by
    simp at hlen
  | c1 :: c2 :: r1, d1 :: d2 :: r2, h1, h2, hlen, hpar, hdec => by
    obtain ⟨v1, hv1, hb1⟩ := hexVal_lower c1 (h1 c1 (by simp))
    obtain ⟨v2, hv2, hb2⟩ := hexVal_lower c2 (h1 c2 (by simp))
    obtain ⟨w1, hw1, hc1⟩ := hexVal_lower d1 (h2 d1 (by simp))
    obtain ⟨w2, hw2, hc2⟩ := hexVal_lower d2 (h2 d2 (by simp))
    rw [hexDecodeL, hv1, hv2] at hdec
    rw [hexDecodeL, hw1, hw2] at hdec
    obtain ⟨hhead, htail⟩ := List.cons.injEq _ _ _ _ ▸ hdec
    have hv : v1 = w1 ∧ v2 = w2 := by omega
    have e1 : c1 = d1 :=
      hexVal_inj_lower c1 d1 (h1 c1 (by simp)) (h2 d1 (by simp))
        (by rw [hv1, hw1, hv.1])
    have e2 : c2 = d2 :=
      hexVal_inj_lower c2 d2 (h1 c2 (by simp)) (h2 d2 (by simp))
        (by rw [hv2, hw2, hv.2])
    have er : r1 = r2 :=
      hexDecodeL_inj r1 r2 (fun c hc => h1 c (by simp [hc]))
        (fun c hc => h2 c (by simp [hc]))
        (by simp at hlen; omega) (by simp at hpar ⊢; omega) htail
    rw [e1, e2, er]

/-- C9: `verifyToken` accepts exactly the hashed plaintext.  Whatever
salt `hashToken` draws (any non-empty lowercase-hex salt) and whatever
the scrypt KDF computes (a 128-character lowercase-hex digest), the
stored `salt:hash` verifies against the original plaintext; and against
any other plaintext whose scrypt digest under the same salt differs (the
collision-freedom the KDF is relied on for), verification returns
`false`. -/
theorem C9_verifyToken_roundtrip :
    ∀ (scrypt : List Char → List Char → List Char) (salt t t' : List Char),
      salt ≠ [] →
      (∀ c ∈ salt, isLowerHexChar c = true) →
      (scrypt t salt).length = 128 →
      (∀ c ∈ scrypt t salt, isLowerHexChar c = true) →
      (scrypt t' salt).length = 128 →
      (∀ c ∈ scrypt t' salt, isLowerHexChar c = true) →
      verifyTokenL scrypt t (hashTokenL scrypt salt t) = some true ∧
      (t' ≠ t → scrypt t' salt ≠ scrypt t salt →
        verifyTokenL scrypt t' (hashTokenL scrypt salt t) = some false) := by
  intro scrypt salt t t' hsne hshex hlen hhex hlen' hhex'
  have hsep : ':' ∉ salt := colon_not_mem_of_hex salt hshex
  have hsepH : ':' ∉ scrypt t salt := colon_not_mem_of_hex _ hhex
  have hhne : scrypt t salt ≠ [] := by
    intro e
    rw [e] at hlen
    simp at hlen
  have hsplit : splitOnCharL ':' (hashTokenL scrypt salt t) =
      [salt, scrypt t salt] := by
    unfold hashTokenL
    rw [splitOnCharL_append ':' salt _ hsep, splitOnCharL_no_sep ':' _ hsepH]
  constructor
  · unfold verifyTokenL
    rw [hsplit]
    dsimp only
    rw [if_neg (by push_neg; exact ⟨hsne, hhne⟩)]
    unfold timingSafeEqualHexL
    simp
  · intro _ hneq
    unfold verifyTokenL
    rw [hsplit]
    dsimp only
    rw [if_neg (by push_neg; exact ⟨hsne, hhne⟩)]
    unfold timingSafeEqualHexL
    have hl1 : 2 * (hexDecodeL (scrypt t salt)).length = 128 := by
      rw [hexDecodeL_length _ hhex (by omega)]
      exact hlen
    have hl2 : 2 * (hexDecodeL (scrypt t' salt)).length = 128 := by
      rw [hexDecodeL_length _ hhex' (by omega)]
      exact hlen'
    rw [if_neg (by omega)]
    have hdne : hexDecodeL (scrypt t salt) ≠ hexDecodeL (scrypt t' salt) := by
      intro e
      exact hneq (hexDecodeL_inj _ _ hhex hhex' (by omega) (by omega) e).symm
    simp [hdne]

set_option maxRecDepth 10000 in
/-- C9 witness: a concrete two-point KDF model (distinct 128-character
lowercase-hex digests for the two plaintexts) — the stored hash of `a`
verifies against `a` and is rejected for `b`. -/
theorem C9_witness :
    verifyTokenL
      (fun p _ => if p = ['a'] then List.replicate 128 'a' else List.replicate 128 'b')
      ['a']
      (hashTokenL
        (fun p _ => if p = ['a'] then List.replicate 128 'a' else List.replicate 128 'b')
        ['0', '1'] ['a']) = some true ∧
    verifyTokenL
      (fun p _ => if p = ['a'] then List.replicate 128 'a' else List.replicate 128 'b')
      ['b']
      (hashTokenL
        (fun p _ => if p = ['a'] then List.replicate 128 'a' else List.replicate 128 'b')
        ['0', '1'] ['a']) = some false := by
  have h := C9_verifyToken_roundtrip
    (fun p _ => if p = ['a'] then List.replicate 128 'a' else List.replicate 128 'b')
    ['0', '1'] ['a'] ['b']
    (by decide) (by decide) (by decide) (by decide) (by decide) (by decide)
  exact ⟨h.1, h.2 (by decide) (by decide)⟩

/-- The ingestion Lambda's diff-length error can only arise from a
payload whose diff exceeds 50 000 characters. -/
lemma mem_validateEvent_diff (ev : IngestEvent)
    (h : "diff: max 50000 characters" ∈ validateEvent ev) :
    ∃ p d, ev.payload = some p ∧ p.diff = some d ∧ 50000 < d.length := by
  unfold validateEvent at h
  simp only [List.mem_append] at h
  rcases h with ((((h | h) | h) | h) | h) | h
  · split at h
    · simp at h
    · split at h <;> simp at h
  · split at h <;> simp at h
  · split at h <;> simp at h
  · split at h
    · simp at h
    · split at h <;> simp at h
  · split at h
    · simp at h
    · split at h <;> simp at h
  · cases hP : ev.payload with
    | none => rw [hP] at h; simp at h
    | some p =>
      rw [hP] at h
      dsimp only at h
      simp only [List.mem_append] at h
      rcases h with h | h
      · split at h
        · unfold validatePush at h
          simp only [List.mem_append] at h
          rcases h with ((h | h) | h) | h
          · split at h
            · simp at h
            · split at h <;> simp at h
          · split at h <;> simp at h
          · split at h <;> simp at h
          · cases hD : p.diff with
            | none => rw [hD] at h; simp at h
            | some d =>
              rw [hD] at h
              dsimp only at h
              split at h
              · exact ⟨p, d, rfl, hD, by assumption⟩
              · simp at h
        · simp at h
      · split at h
        · unfold validateNote at h
          simp only [List.mem_append] at h
          rcases h with (h | h) | h
          · split at h <;> simp at h
          · split at h
            · simp at h
            · split at h <;> simp at h
          · split at h
            · simp at h
            · split at h <;> simp at h
        · simp at h

/-- C10: `getDiff` returns `null` when the git invocation fails or the
diff between the last two commits is empty, and otherwise a diff of at
most 50 000 characters (`slice(0, 50_000)` truncation); consequently a
push transmitted by `handlePushEvent` always carries a non-empty diff
within the ingestion backend's 50 000-character limit, so the backend's
`diff: max 50000 characters` check never fires on it — and a push with
an empty diff is never transmitted at all. -/
theorem C10_diff_capture_bounds :
    ∀ (rawDiff : Option String) (ci : Option CommitInfo)
      (uuid pid ts br db : String),
      getDiff none = none ∧
      getDiff (some "") = none ∧
      (∀ d, getDiff rawDiff = some d → d.length ≤ 50000 ∧ d ≠ "") ∧
      (∀ ev, handlePushEvent rawDiff ci uuid pid ts br db = some ev →
        ev.payload.diff.length ≤ 50000 ∧ ev.payload.diff ≠ "" ∧
        "diff: max 50000 characters" ∉ validateEvent (toIngestEvent ev)) := by
  intro rawDiff ci uuid pid ts br db
  have hbound : ∀ d, getDiff rawDiff = some d → d.length ≤ 50000 ∧ d ≠ "" := by
    intro d hd
    cases rawDiff with
    | none => simp [getDiff] at hd
    | some x =>
      rw [getDiff] at hd
      by_cases hx : x.isEmpty
      · rw [if_pos hx] at hd
        exact absurd hd (by simp)
      · rw [if_neg hx] at hd
        have hxne : x ≠ "" := fun e => hx ((String.isEmpty_iff x).mpr e)
        by_cases hlen : 50000 < x.length
        · rw [if_pos hlen] at hd
          injection hd with hd
          subst hd
          constructor
          · show (x.toList.take 50000).length ≤ 50000
            rw [List.length_take]
            omega
          · intro he
            have hdata : x.toList.take 50000 = [] := congrArg String.data he
            rcases List.take_eq_nil_iff.mp hdata with h0 | h0
            · exact absurd h0 (by norm_num)
            · exact hxne (String.ext h0)
        · rw [if_neg hlen] at hd
          injection hd with hd
          subst hd
          exact ⟨by omega, hxne⟩
  refine ⟨rfl, rfl, hbound, ?_⟩
  intro ev hev
  unfold handlePushEvent at hev
  cases hgd : getDiff rawDiff with
  | none =>
    rw [hgd] at hev
    exact absurd hev (by simp)
  | some diff =>
    rw [hgd] at hev
    cases ci with
    | none => exact absurd hev (by simp)
    | some info =>
      dsimp only at hev
      injection hev with hev
      subst hev
      obtain ⟨hb1, hb2⟩ := hbound diff hgd
      refine ⟨hb1, hb2, ?_⟩
      intro hmem
      obtain ⟨p, d, hP, hD, hgt⟩ := mem_validateEvent_diff _ hmem
      simp only [toIngestEvent, Option.some.injEq] at hP
      subst hP
      simp only [Option.some.injEq] at hD
      subst hD
      omega

/-- C10 witness: a short diff passes through untruncated, and the
transmitted event clears the backend diff check. -/
theorem C10_witness :
    ("abc" : String).length ≤ 50000 ∧ ("abc" : String) ≠ "" ∧
    ∃ ev, handlePushEvent (some "abc")
        (some ⟨"a94a8fe5ccb19ba61c4c0873d391e987982fbbd3", "fix", "alice", "t"⟩)
        "u" "p" "2026-01-01T00:00:00Z" "main" "main" = some ev ∧
      "diff: max 50000 characters" ∉ validateEvent (toIngestEvent ev) := by
  obtain ⟨h1, h2⟩ := (C10_diff_capture_bounds (some "abc")
    (some ⟨"a94a8fe5ccb19ba61c4c0873d391e987982fbbd3", "fix", "alice", "t"⟩)
    "u" "p" "2026-01-01T00:00:00Z" "main" "main").2.2.1 "abc" (by decide)
  refine ⟨h1, h2, ⟨_, rfl, ?_⟩⟩
  exact ((C10_diff_capture_bounds (some "abc")
    (some ⟨"a94a8fe5ccb19ba61c4c0873d391e987982fbbd3", "fix", "alice", "t"⟩)
    "u" "p" "2026-01-01T00:00:00Z" "main" "main").2.2.2 _ rfl).2.2

/-- A vector's squared magnitude is non-negative. -/
lemma normSq_nonneg : ∀ a : List ℚ, 0 ≤ normSq a
  | [] => le_refl 0
  | x :: xs => by
    have ih := normSq_nonneg xs
    unfold normSq dotQ
    exact add_nonneg (mul_self_nonneg x) ih

/-- `scoreLeB` with the `let`-bindings expanded. -/
lemma scoreLeB_def (a b q : List ℚ) :
    scoreLeB a b q =
      (if normSq q = 0 then true
       else if normSq a = 0 then
         (if normSq b = 0 then true else decide (0 ≤ dotQ b q))
       else if normSq b = 0 then decide (dotQ a q ≤ 0)
       else if 0 ≤ dotQ a q then
         (if dotQ b q < 0 then false
          else decide ((dotQ a q) ^ 2 * normSq b ≤ (dotQ b q) ^ 2 * normSq a))
       else if 0 ≤ dotQ b q then true
       else decide ((dotQ b q) ^ 2 * normSq a ≤ (dotQ a q) ^ 2 * normSq b)) := rfl

/-- The rational sign-and-squares procedure `scoreLeB` decides the real
cosine-score comparison. -/
lemma scoreLeB_iff (a b q : List ℚ) :
    scoreLeB a b q = true ↔ score a q ≤ score b q := by
  have hna := normSq_nonneg a
  have hnb := normSq_nonneg b
  have hnq := normSq_nonneg q
  rw [scoreLeB_def]
  unfold score
  by_cases hq : normSq q = 0
  · simp [hq]
  · have hC : (0:ℝ) < Real.sqrt ((normSq q : ℚ) : ℝ) := by
      rw [Real.sqrt_pos]
      exact_mod_cast lt_of_le_of_ne hnq (Ne.symm hq)
    by_cases ha : normSq a = 0
    · by_cases hb : normSq b = 0
      · simp [hq, ha, hb]
      · have hB : (0:ℝ) < Real.sqrt ((normSq b : ℚ) : ℝ) := by
          rw [Real.sqrt_pos]
          exact_mod_cast lt_of_le_of_ne hnb (Ne.symm hb)
        rw [if_neg hq, if_pos ha, if_neg hb,
          if_pos (Or.inl ha), if_neg (not_or.mpr ⟨hb, hq⟩), decide_eq_true_iff]
        rw [le_div_iff₀ (mul_pos hB hC), zero_mul]
        constructor <;> intro h <;> exact_mod_cast h
    · have hA : (0:ℝ) < Real.sqrt ((normSq a : ℚ) : ℝ) := by
        rw [Real.sqrt_pos]
        exact_mod_cast lt_of_le_of_ne hna (Ne.symm ha)
      by_cases hb : normSq b = 0
      · rw [if_neg hq, if_neg ha, if_pos hb,
          if_neg (not_or.mpr ⟨ha, hq⟩), if_pos (Or.inl hb), decide_eq_true_iff]
        rw [div_le_iff₀ (mul_pos hA hC), zero_mul]
        constructor <;> intro h <;> exact_mod_cast h
      · have hB : (0:ℝ) < Real.sqrt ((normSq b : ℚ) : ℝ) := by
          rw [Real.sqrt_pos]
          exact_mod_cast lt_of_le_of_ne hnb (Ne.symm hb)
        have hAA : Real.sqrt ((normSq a : ℚ) : ℝ) * Real.sqrt ((normSq a : ℚ) : ℝ) =
            ((normSq a : ℚ) : ℝ) := Real.mul_self_sqrt (by exact_mod_cast hna)
        have hBB : Real.sqrt ((normSq b : ℚ) : ℝ) * Real.sqrt ((normSq b : ℚ) : ℝ) =
            ((normSq b : ℚ) : ℝ) := Real.mul_self_sqrt (by exact_mod_cast hnb)
        rw [if_neg hq, if_neg ha, if_neg hb,
          if_neg (not_or.mpr ⟨ha, hq⟩), if_neg (not_or.mpr ⟨hb, hq⟩),
          div_le_div_iff₀ (mul_pos hA hC) (mul_pos hB hC)]
        have hkey : ((dotQ a q : ℚ) : ℝ) *
              (Real.sqrt ((normSq b : ℚ) : ℝ) * Real.sqrt ((normSq q : ℚ) : ℝ)) ≤
            ((dotQ b q : ℚ) : ℝ) *
              (Real.sqrt ((normSq a : ℚ) : ℝ) * Real.sqrt ((normSq q : ℚ) : ℝ)) ↔
            ((dotQ a q : ℚ) : ℝ) * Real.sqrt ((normSq b : ℚ) : ℝ) ≤
            ((dotQ b q : ℚ) : ℝ) * Real.sqrt ((normSq a : ℚ) : ℝ) := by
          rw [show ((dotQ a q : ℚ) : ℝ) *
                (Real.sqrt ((normSq b : ℚ) : ℝ) * Real.sqrt ((normSq q : ℚ) : ℝ)) =
              (((dotQ a q : ℚ) : ℝ) * Real.sqrt ((normSq b : ℚ) : ℝ)) *
                Real.sqrt ((normSq q : ℚ) : ℝ) by ring,
            show ((dotQ b q : ℚ) : ℝ) *
                (Real.sqrt ((normSq a : ℚ) : ℝ) * Real.sqrt ((normSq q : ℚ) : ℝ)) =
              (((dotQ b q : ℚ) : ℝ) * Real.sqrt ((normSq a : ℚ) : ℝ)) *
                Real.sqrt ((normSq q : ℚ) : ℝ) by ring,
            mul_le_mul_right hC]
        rw [hkey]
        by_cases hsa : 0 ≤ dotQ a q
        · by_cases hsb : dotQ b q < 0
          · rw [if_pos hsa, if_pos hsb]
            have h1 : ((dotQ b q : ℚ) : ℝ) * Real.sqrt ((normSq a : ℚ) : ℝ) < 0 :=
              mul_neg_of_neg_of_pos (by exact_mod_cast hsb) hA
            have h2 : 0 ≤ ((dotQ a q : ℚ) : ℝ) * Real.sqrt ((normSq b : ℚ) : ℝ) :=
              mul_nonneg (by exact_mod_cast hsa) hB.le
            simp only [Bool.false_eq_true, false_iff, not_le]
            linarith
          · have hsb' : (0:ℚ) ≤ dotQ b q := not_lt.mp hsb
            rw [if_pos hsa, if_neg hsb, decide_eq_true_iff]
            have h1 : 0 ≤ ((dotQ a q : ℚ) : ℝ) * Real.sqrt ((normSq b : ℚ) : ℝ) :=
              mul_nonneg (by exact_mod_cast hsa) hB.le
            have h2 : 0 ≤ ((dotQ b q : ℚ) : ℝ) * Real.sqrt ((normSq a : ℚ) : ℝ) :=
              mul_nonneg (by exact_mod_cast hsb') hA.le
            rw [mul_self_le_mul_self_iff h1 h2]
            rw [show (((dotQ a q : ℚ) : ℝ) * Real.sqrt ((normSq b : ℚ) : ℝ)) *
                  (((dotQ a q : ℚ) : ℝ) * Real.sqrt ((normSq b : ℚ) : ℝ)) =
                ((dotQ a q : ℚ) : ℝ) ^ 2 *
                  (Real.sqrt ((normSq b : ℚ) : ℝ) * Real.sqrt ((normSq b : ℚ) : ℝ))
              by ring,
              show (((dotQ b q : ℚ) : ℝ) * Real.sqrt ((normSq a : ℚ) : ℝ)) *
                  (((dotQ b q : ℚ) : ℝ) * Real.sqrt ((normSq a : ℚ) : ℝ)) =
                ((dotQ b q : ℚ) : ℝ) ^ 2 *
                  (Real.sqrt ((normSq a : ℚ) : ℝ) * Real.sqrt ((normSq a : ℚ) : ℝ))
              by ring, hAA, hBB]
            constructor <;> intro h <;> exact_mod_cast h
        · have hsa' : dotQ a q < 0 := not_le.mp hsa
          by_cases hsb : 0 ≤ dotQ b q
          · rw [if_neg hsa, if_pos hsb]
            have h1 : ((dotQ a q : ℚ) : ℝ) * Real.sqrt ((normSq b : ℚ) : ℝ) < 0 :=
              mul_neg_of_neg_of_pos (by exact_mod_cast hsa') hB
            have h2 : 0 ≤ ((dotQ b q : ℚ) : ℝ) * Real.sqrt ((normSq a : ℚ) : ℝ) :=
              mul_nonneg (by exact_mod_cast hsb) hA.le
            simp only [true_iff]
            linarith
          · have hsb' : dotQ b q < 0 := not_le.mp hsb
            rw [if_neg hsa, if_neg hsb, decide_eq_true_iff]
            have h1 : 0 ≤ -((dotQ b q : ℚ) : ℝ) * Real.sqrt ((normSq a : ℚ) : ℝ) :=
              mul_nonneg (by
                rw [neg_nonneg]
                exact_mod_cast hsb'.le) hA.le
            have h2 : 0 ≤ -((dotQ a q : ℚ) : ℝ) * Real.sqrt ((normSq b : ℚ) : ℝ) :=
              mul_nonneg (by
                rw [neg_nonneg]
                exact_mod_cast hsa'.le) hB.le
            have hiff := mul_self_le_mul_self_iff h1 h2
            rw [show (-((dotQ b q : ℚ) : ℝ) * Real.sqrt ((normSq a : ℚ) : ℝ)) *
                  (-((dotQ b q : ℚ) : ℝ) * Real.sqrt ((normSq a : ℚ) : ℝ)) =
                ((dotQ b q : ℚ) : ℝ) ^ 2 *
                  (Real.sqrt ((normSq a : ℚ) : ℝ) * Real.sqrt ((normSq a : ℚ) : ℝ))
              by ring,
              show (-((dotQ a q : ℚ) : ℝ) * Real.sqrt ((normSq b : ℚ) : ℝ)) *
                  (-((dotQ a q : ℚ) : ℝ) * Real.sqrt ((normSq b : ℚ) : ℝ)) =
                ((dotQ a q : ℚ) : ℝ) ^ 2 *
                  (Real.sqrt ((normSq b : ℚ) : ℝ) * Real.sqrt ((normSq b : ℚ) : ℝ))
              by ring, hAA, hBB] at hiff
            constructor
            · intro hq2
              have hx := hiff.mpr (by exact_mod_cast hq2)
              linarith
            · intro hr
              have hx := hiff.mp (by linarith)
              exact_mod_cast hx

/-- The boolean ranking comparator decides the real ranking order
(score descending, then confidence, then recency). -/
lemma rankedBefore_iff (q : List ℚ) (r1 r2 : ContextRecord) :
    rankedBefore q r1 r2 = true ↔ RankOrder q r1 r2 := by
  unfold rankedBefore RankOrder
  have h12 := scoreLeB_iff (embOf r1) (embOf r2) q
  have h21 := scoreLeB_iff (embOf r2) (embOf r1) q
  by_cases hgt : score (embOf r2) q < score (embOf r1) q
  · have e1 : scoreLeB (embOf r2) (embOf r1) q = true := h21.mpr hgt.le
    have e2 : scoreLeB (embOf r1) (embOf r2) q = false := by
      rw [Bool.eq_false_iff]
      intro hh
      exact absurd (h12.mp hh) (not_le.mpr hgt)
    rw [e1, e2]
    simp [hgt]
  · by_cases hlt : score (embOf r1) q < score (embOf r2) q
    · have e1 : scoreLeB (embOf r1) (embOf r2) q = true := h12.mpr hlt.le
      have e2 : scoreLeB (embOf r2) (embOf r1) q = false := by
        rw [Bool.eq_false_iff]
        intro hh
        exact absurd (h21.mp hh) (not_le.mpr hlt)
      rw [e1, e2]
      simp [hgt, hlt.ne]
    · have heq : score (embOf r1) q = score (embOf r2) q :=
        le_antisymm (not_lt.mp hgt) (not_lt.mp hlt)
      have e1 : scoreLeB (embOf r1) (embOf r2) q = true := h12.mpr heq.le
      have e2 : scoreLeB (embOf r2) (embOf r1) q = true := h21.mpr heq.ge
      rw [e1, e2]
      by_cases hc1 : confOf r2 < confOf r1
      · simp [hgt, heq, hc1]
      · by_cases hc2 : confOf r1 < confOf r2
        · simp [hgt, hc1, hc2, heq, hc2.ne]
        · have heqc : confOf r1 = confOf r2 :=
            le_antisymm (not_lt.mp hc1) (not_lt.mp hc2)
          simp [hgt, hc1, hc2, heq, heqc]

/-- The real ranking order is total. -/
lemma rankOrder_total (q : List ℚ) (r1 r2 : ContextRecord) :
    RankOrder q r1 r2 ∨ RankOrder q r2 r1 := by
  unfold RankOrder
  rcases lt_trichotomy (score (embOf r1) q) (score (embOf r2) q) with h | h | h
  · exact Or.inr (Or.inl h)
  · rcases lt_trichotomy (confOf r1) (confOf r2) with hc | hc | hc
    · exact Or.inr (Or.inr ⟨h.symm, Or.inl hc⟩)
    · rcases Int.le_total (r2.extractedAt.getD 0) (r1.extractedAt.getD 0) with ht | ht
      · exact Or.inl (Or.inr ⟨h, Or.inr ⟨hc, ht⟩⟩)
      · exact Or.inr (Or.inr ⟨h.symm, Or.inr ⟨hc.symm, ht⟩⟩)
    · exact Or.inl (Or.inr ⟨h, Or.inl hc⟩)
  · exact Or.inl (Or.inl h)

/-- The real ranking order is transitive. -/
lemma rankOrder_trans (q : List ℚ) (r1 r2 r3 : ContextRecord) :
    RankOrder q r1 r2 → RankOrder q r2 r3 → RankOrder q r1 r3 := by
  unfold RankOrder
  rintro (h1 | ⟨he1, hc1⟩) (h2 | ⟨he2, hc2⟩)
  · exact Or.inl (lt_trans h2 h1)
  · exact Or.inl (he2 ▸ h1)
  · exact Or.inl (he1 ▸ h2)
  · refine Or.inr ⟨he1.trans he2, ?_⟩
    rcases hc1 with hcl1 | ⟨hce1, ht1⟩ <;> rcases hc2 with hcl2 | ⟨hce2, ht2⟩
    · exact Or.inl (lt_trans hcl2 hcl1)
    · exact Or.inl (hce2 ▸ hcl1)
    · exact Or.inl (hce1 ▸ hcl2)
    · exact Or.inr ⟨hce1.trans hce2, le_trans ht2 ht1⟩

/-- C8: every search result's score is the cosine similarity
`dot(a,b)/(|a|·|b|)` between the record's embedding and the query
embedding (0 when either has zero magnitude); the returned list is
ordered descending by that score with ties broken by higher confidence
and then by more recent `extractedAt`, all results come from the
candidate set, and the output is the top-`limit` prefix of a full
ranking (a sorted permutation) of the candidates. -/
theorem C8_search_ranking :
    ∀ (gen : List ℚ → List ContextRecord → String × Bool)
      (store : List ContextRecord) (pid b : String) (q : List ℚ) (limit : Nat),
      (search gen store pid b q limit).results.length ≤ limit ∧
      List.Sorted (RankOrder q) (search gen store pid b q limit).results ∧
      (∀ r ∈ (search gen store pid b q limit).results,
        r ∈ (resolve store pid b).filter isCandidate ∧
        score (embOf r) q =
          (if normSq (embOf r) = 0 ∨ normSq q = 0 then (0:ℝ)
           else (dotQ (embOf r) q : ℝ) /
             (Real.sqrt ((normSq (embOf r) : ℚ) : ℝ) *
              Real.sqrt ((normSq q : ℚ) : ℝ)))) ∧
      (∃ full, full.Perm ((resolve store pid b).filter isCandidate) ∧
        List.Sorted (RankOrder q) full ∧
        (search gen store pid b q limit).results = full.take limit) := by
  intro gen store pid b q limit
  haveI hTotal : IsTotal ContextRecord (fun x y => rankedBefore q x y = true) :=
    ⟨fun x y => by
      rcases rankOrder_total q x y with h | h
      · exact Or.inl ((rankedBefore_iff q x y).mpr h)
      · exact Or.inr ((rankedBefore_iff q y x).mpr h)⟩
  haveI hTrans : IsTrans ContextRecord (fun x y => rankedBefore q x y = true) :=
    ⟨fun x y z hx hy =>
      (rankedBefore_iff q x z).mpr
        (rankOrder_trans q x y z ((rankedBefore_iff q x y).mp hx)
          ((rankedBefore_iff q y z).mp hy))⟩
  unfold search
  by_cases hc : ((resolve store pid b).filter isCandidate).isEmpty
  · rw [if_pos hc]
    rw [List.isEmpty_iff] at hc
    exact ⟨by simp, by simp, by simp, [], by rw [hc], by simp, by simp⟩
  · rw [if_neg hc]
    have hsortedFull : List.Sorted (RankOrder q)
        (((resolve store pid b).filter isCandidate).insertionSort
          (fun r1 r2 => rankedBefore q r1 r2 = true)) :=
      (List.sorted_insertionSort _ _).imp (fun h => (rankedBefore_iff q _ _).mp h)
    refine ⟨List.length_take_le _ _, ?_, ?_, ?_⟩
    · exact hsortedFull.sublist (List.take_sublist _ _)
    · intro r hr
      have hrfull := (List.take_sublist _ _).subset hr
      rw [List.mem_insertionSort] at hrfull
      exact ⟨hrfull, rfl⟩
    · exact ⟨_, List.perm_insertionSort _ _, hsortedFull, rfl⟩

/-- C8 witness: searching a one-record store — the result is within the
limit, comes from the candidate set, and its score is the cosine
formula. -/
theorem C8_witness :
    (search (fun _ _ => ("a", true)) [sampleCtxRecord] "p" "main" [1, 0] 5).results.length ≤ 5 ∧
    sampleCtxRecord ∈ (resolve [sampleCtxRecord] "p" "main").filter isCandidate ∧
    score (embOf sampleCtxRecord) [1, 0] =
      (if normSq (embOf sampleCtxRecord) = 0 ∨ normSq [1, 0] = 0 then (0:ℝ)
       else (dotQ (embOf sampleCtxRecord) [1, 0] : ℝ) /
         (Real.sqrt ((normSq (embOf sampleCtxRecord) : ℚ) : ℝ) *
          Real.sqrt ((normSq [1, 0] : ℚ) : ℝ))) :=
  ⟨(C8_search_ranking (fun _ _ => ("a", true)) [sampleCtxRecord] "p" "main" [1, 0] 5).1,
   ((C8_search_ranking (fun _ _ => ("a", true)) [sampleCtxRecord] "p" "main" [1, 0] 5).2.2.1
     sampleCtxRecord (by decide)).1,
   ((C8_search_ranking (fun _ _ => ("a", true)) [sampleCtxRecord] "p" "main" [1, 0] 5).2.2.1
     sampleCtxRecord (by decide)).2⟩

end FlowSync
